import Mathlib

/-!
A verification development for the profile-guided flow analysis core of the
JIT flowgraph profile support (`fgprofile.cpp`).  Block weights
(`BasicBlock::weight_t`) are modelled as rationals; `BB_MAX_WEIGHT` becomes a
distinguished large rational constant.  Machine integers used by the stress
weight source are modelled as naturals reduced modulo `2^32`.
-/

namespace FgProfile

/-- Block weights (`BasicBlock::weight_t`). -/
abbrev Weight := ℚ

/-- `BB_MAX_WEIGHT`: the largest representable weight. -/
def bbMaxWeight : Weight := (2 : ℚ) ^ 128

/-- `BB_ZERO_WEIGHT`. -/
def bbZeroWeight : Weight := 0

/-- The `[flEdgeWeightMin, flEdgeWeightMax]` range stored on a `flowList` edge. -/
structure EdgeRange where
  flEdgeWeightMin : Weight
  flEdgeWeightMax : Weight
  deriving Repr, DecidableEq

/-- Outcome of a checked edge-weight setter: the updated range, the returned
`bool`, and whether `*wbUsedSlop` was set by this call. -/
structure SetOut where
  range : EdgeRange
  ok : Bool
  usedSlop : Bool
  deriving Repr, DecidableEq

/-- `flowList::setEdgeWeightMinChecked` (fgprofile.cpp:630). -/
def setEdgeWeightMinChecked (r : EdgeRange) (newWeight slop : Weight) : SetOut :=
  if newWeight ≤ r.flEdgeWeightMax ∧ newWeight ≥ r.flEdgeWeightMin then
    { range := { r with flEdgeWeightMin := newWeight }, ok := true, usedSlop := false }
  else if slop > 0 then
    if r.flEdgeWeightMax < newWeight then
      if newWeight ≤ r.flEdgeWeightMax + slop then
        { range := if r.flEdgeWeightMax ≠ 0 then
            { flEdgeWeightMin := r.flEdgeWeightMax, flEdgeWeightMax := newWeight }
          else r,
          ok := true, usedSlop := true }
      else
        { range := r, ok := false, usedSlop := false }
    else
      if newWeight + slop ≥ r.flEdgeWeightMin then
        { range := { r with flEdgeWeightMin := newWeight }, ok := true, usedSlop := true }
      else
        { range := r, ok := false, usedSlop := false }
  else
    { range := r, ok := false, usedSlop := false }

/-- `flowList::setEdgeWeightMaxChecked` (fgprofile.cpp:708). -/
def setEdgeWeightMaxChecked (r : EdgeRange) (newWeight slop : Weight) : SetOut :=
  if newWeight ≥ r.flEdgeWeightMin ∧ newWeight ≤ r.flEdgeWeightMax then
    { range := { r with flEdgeWeightMax := newWeight }, ok := true, usedSlop := false }
  else if slop > 0 then
    if r.flEdgeWeightMax < newWeight then
      if newWeight ≤ r.flEdgeWeightMax + slop then
        { range := if r.flEdgeWeightMax ≠ 0 then
            { r with flEdgeWeightMax := newWeight }
          else r,
          ok := true, usedSlop := true }
      else
        { range := r, ok := false, usedSlop := false }
    else
      if newWeight + slop ≥ r.flEdgeWeightMin then
        { range := { flEdgeWeightMin := newWeight, flEdgeWeightMax := r.flEdgeWeightMin },
          ok := true, usedSlop := true }
      else
        { range := r, ok := false, usedSlop := false }
  else
    { range := r, ok := false, usedSlop := false }

/-- `flowList::setEdgeWeights` (fgprofile.cpp:792): plain assignment of both ends. -/
def setEdgeWeights (theMinWeight theMaxWeight : Weight) : EdgeRange :=
  { flEdgeWeightMin := theMinWeight, flEdgeWeightMax := theMaxWeight }

/-- The well-formedness invariant `0 ≤ min ≤ max` on an edge range. -/
def EdgeRangeWF (r : EdgeRange) : Prop :=
  0 ≤ r.flEdgeWeightMin ∧ r.flEdgeWeightMin ≤ r.flEdgeWeightMax

instance (r : EdgeRange) : Decidable (EdgeRangeWF r) := by
  unfold EdgeRangeWF; infer_instance

/-! ## ProfileData: schema, counter buffer, and the per-offset weight query -/

/-- `ICorJitInfo::PgoInstrumentationKind` (the three kinds this file uses). -/
inductive PgoInstrumentationKind where
  | BasicBlockIntCount
  | TypeHandleHistogramCount
  | TypeHandleHistogramTypeHandle
  deriving Repr, DecidableEq

/-- `ICorJitInfo::PgoInstrumentationSchema`. -/
structure PgoSchemaEntry where
  InstrumentationKind : PgoInstrumentationKind
  ILOffset : Nat
  Count : Nat
  Other : Nat
  Offset : Nat
  deriving Repr, DecidableEq

/-- The slice of compiler state that `fgHaveProfileData`,
`fgGetProfileWeightForBasicBlock` and `fgComputeProfileScale` read.
`fgPgoData` maps a byte offset in the counter buffer to the 32-bit counter
stored there. -/
structure ProfileContext where
  compIsForImportOnly : Bool
  fgPgoSchema : Option (List PgoSchemaEntry)
  fgPgoData : Nat → Nat
  compMethodHash : Nat
  fgStressBBProf : Nat

/-- `Compiler::fgHaveProfileData` (fgprofile.cpp:40). -/
def fgHaveProfileData (c : ProfileContext) : Bool :=
  if c.compIsForImportOnly then false else c.fgPgoSchema.isSome

/-- Reduction modulo `2^32`, the unsigned 32-bit arithmetic of the stress hash. -/
def u32 (n : Nat) : Nat := n % 2 ^ 32

/-- The stress hash `(info.compMethodHash() * hashSeed) ^ (offset * 1027)`
(fgprofile.cpp:164), in 32-bit unsigned arithmetic. -/
def stressHash (methodHash seed offset : Nat) : Nat :=
  u32 (methodHash * seed) ^^^ u32 (offset * 1027)

/-- The deterministic weight synthesized by the stress-profile path of
`fgGetProfileWeightForBasicBlock` (fgprofile.cpp:161-191). -/
def stressSynthesizedWeight (methodHash seed offset : Nat) : Weight :=
  let hash := stressHash methodHash seed offset
  let weight : Weight :=
    if hash % 3 = 0 then 0
    else if hash % 11 = 0 then ((hash % 23) * (hash % 29) * (hash % 31) : ℕ)
    else ((hash % 17) * (hash % 19) : ℕ)
  if offset = 0 ∧ weight = 0 then ((1 + hash % 5 : ℕ) : Weight) else weight

/-- The linear schema scan of `fgGetProfileWeightForBasicBlock`
(fgprofile.cpp:200-208): the first entry of kind `BasicBlockIntCount` whose
`ILOffset` matches yields the 32-bit counter at its buffer offset. -/
def schemaScanWeight (data : Nat → Nat) : List PgoSchemaEntry → Nat → Option Weight
  | [], _ => none
  | e :: rest, offset =>
    if e.InstrumentationKind = PgoInstrumentationKind.BasicBlockIntCount ∧ e.ILOffset = offset
    then some ((data e.Offset : ℕ) : Weight)
    else schemaScanWeight data rest offset

/-- `Compiler::fgGetProfileWeightForBasicBlock` (fgprofile.cpp:155).
`none` models a `false` return; `some w` models a `true` return with
`*weightWB = w`. -/
def fgGetProfileWeightForBasicBlock (c : ProfileContext) (offset : Nat) : Option Weight :=
  if c.fgStressBBProf ≠ 0 then
    some (stressSynthesizedWeight c.compMethodHash c.fgStressBBProf offset)
  else if fgHaveProfileData c = false then
    none
  else
    match c.fgPgoSchema with
    | none => none
    | some schema =>
      match schemaScanWeight c.fgPgoData schema offset with
      | some w => some w
      | none => some 0

/-! ## fgComputeProfileScale -/

/-- `InlineInfo::ProfileScaleState`. -/
inductive ProfileScaleState where
  | UNDETERMINED
  | UNAVAILABLE
  | KNOWN
  deriving Repr, DecidableEq

/-- The fields of `impInlineInfo` that `fgComputeProfileScale` touches. -/
structure InlineScaleInfo where
  profileScaleState : ProfileScaleState
  profileScaleFactor : ℚ
  deriving Repr, DecidableEq

/-- `Compiler::fgComputeProfileScale` (fgprofile.cpp:58).  The call-site block
is abstracted to its profile flag and weight; `c` is the callee's profile
context. -/
def fgComputeProfileScale (callSiteHasProfileWeight : Bool) (callSiteWeight : Weight)
    (c : ProfileContext) (info : InlineScaleInfo) : InlineScaleInfo :=
  if info.profileScaleState ≠ ProfileScaleState.UNDETERMINED then info
  else if callSiteHasProfileWeight = false then
    { info with profileScaleState := ProfileScaleState.UNAVAILABLE }
  else if callSiteWeight = 0 then
    { info with profileScaleState := ProfileScaleState.UNAVAILABLE }
  else if fgHaveProfileData c = false then
    { info with profileScaleState := ProfileScaleState.UNAVAILABLE }
  else
    match fgGetProfileWeightForBasicBlock c 0 with
    | none => { info with profileScaleState := ProfileScaleState.UNAVAILABLE }
    | some calleeWeight =>
      if calleeWeight < callSiteWeight then
        { info with profileScaleState := ProfileScaleState.UNAVAILABLE }
      else
        { profileScaleFactor := callSiteWeight / calleeWeight,
          profileScaleState := ProfileScaleState.KNOWN }

/-! ## The control-flow graph model -/

/-- `BBjumpKinds`. -/
inductive BBjumpKind where
  | BBJ_NONE
  | BBJ_ALWAYS
  | BBJ_COND
  | BBJ_SWITCH
  | BBJ_CALLFINALLY
  | BBJ_EHCATCHRET
  | BBJ_EHFINALLYRET
  | BBJ_EHFILTERRET
  | BBJ_RETURN
  | BBJ_THROW
  deriving Repr, DecidableEq

/-- A virtual (non-indirect) call carrying a class-profile candidate, as the
`ClassProbeVisitor` enumerates them inside one block.  `probeStubAddr` is
`gtClassProfileCandidateInfo->stubAddr`; `gtStubCallStubAddr` is the live stub
address field on the call; `thisRewritten`/`classProfileAddr` record whether
and how the instrumentation rewrote the call's `this` argument. -/
structure ProbeCall where
  ilOffset : Nat
  probeStubAddr : Nat
  gtStubCallStubAddr : Nat
  thisRewritten : Bool
  classProfileAddr : Nat
  isVirtualStub : Bool
  deriving Repr, DecidableEq

/-- A basic block: weight, jump kind, optional jump target (block index),
the flags this file reads or writes, the IL code offset, EH boundary
information, and the block's class-profile candidate calls.  The block's
`bbNext` is the next index in the enclosing block list. -/
structure BasicBlock where
  bbWeight : Weight
  bbJumpKind : BBjumpKind
  bbJumpDest : Option Nat
  hasProfileWeight : Bool
  runRarely : Bool
  imported : Bool
  internal : Bool
  hasClassProfile : Bool
  bbCodeOffs : Nat
  hasEHBoundaryIn : Bool
  hasEHBoundaryOut : Bool
  probeCalls : List ProbeCall
  deriving Repr, DecidableEq

/-- A flow graph: blocks in `bbNext` order (index 0 = `fgFirstBB`) together
with each block's predecessor list (`bbPreds`), given as source indices in
list order.  A multigraph is possible. -/
structure FlowGraph where
  blocks : List BasicBlock
  preds : List (List Nat)
  deriving Repr, DecidableEq

/-- Update the `n`-th element of a list in place. -/
def updNth (f : α → α) : Nat → List α → List α
  | _, [] => []
  | 0, a :: l => f a :: l
  | n + 1, a :: l => a :: updNth f n l

/-- `bSrc->bbNext` as a block index (`none` past the last block). -/
def bbNextIdx (numBlocks i : Nat) : Option Nat :=
  if i + 1 < numBlocks then some (i + 1) else none

/-- The "flows into only one other block" successor used by
`fgComputeMissingBlockWeights` (fgprofile.cpp:878-890 and 899-910):
`BBJ_NONE → bbNext`, `BBJ_ALWAYS → bbJumpDest`, anything else → none. -/
def uniqueSuccessor (numBlocks : Nat) (b : BasicBlock) (i : Nat) : Option Nat :=
  match b.bbJumpKind with
  | BBjumpKind.BBJ_NONE => bbNextIdx numBlocks i
  | BBjumpKind.BBJ_ALWAYS => b.bbJumpDest
  | _ => none

/-! ## fgComputeMissingBlockWeights (the weight propagator) -/

/-- State threaded through one propagation pass. -/
structure PropState where
  blocks : List BasicBlock
  changed : Bool
  returnWeight : Weight
  fatal : Bool
  deriving Repr

/-- The candidate weight `newWeight` computed for an unprofiled block `d`
with a non-empty predecessor list (fgprofile.cpp:866-922).  `bbMaxWeight`
(`BB_MAX_WEIGHT`) is the "no candidate" sentinel.  Rule A (unique predecessor
whose unique successor is `d` and which has a profile weight) is computed
first; Rule B (unique successor of `d` whose sole in-edge is from `d`)
overwrites it when it applies.  Returns the candidate together with whether
the `noway_assert(bOnlyNext->bbPreds->getBlock() == bDst)` check fails. -/
def missingWeightCandidate (blocks : List BasicBlock) (preds : List (List Nat))
    (d : Nat) (bDst : BasicBlock) : Weight × Bool :=
  let numBlocks := blocks.length
  let ruleA : Weight :=
    if (preds.getD d []).length = 1 then
      let srcIdx := (preds.getD d []).headD 0
      match blocks.get? srcIdx with
      | none => bbMaxWeight
      | some bSrc =>
        match uniqueSuccessor numBlocks bSrc srcIdx with
        | some nxt => if nxt = d ∧ bSrc.hasProfileWeight then bSrc.bbWeight else bbMaxWeight
        | none => bbMaxWeight
    else bbMaxWeight
  match uniqueSuccessor numBlocks bDst d with
  | some nxt =>
    if (preds.getD nxt []) ≠ [] ∧ (preds.getD nxt []).length = 1 then
      if (preds.getD nxt []).headD 0 = d then
        match blocks.get? nxt with
        | some bOnlyNext => (bOnlyNext.bbWeight, false)
        | none => (ruleA, true)
      else (ruleA, true)
    else (ruleA, false)
  | none => (ruleA, false)

/-- The weight-assignment half of one block's propagation step
(fgprofile.cpp:864-938): assign the candidate weight when one exists and
differs, maintaining `BBF_RUN_RARELY`. -/
def propagateAssign (preds : List (List Nat)) (d : Nat) (s : PropState) : PropState :=
  match s.blocks.get? d with
  | none => s
  | some bDst =>
    if ¬ bDst.hasProfileWeight ∧ (preds.getD d []) ≠ [] then
      match missingWeightCandidate s.blocks preds d bDst with
      | (newWeight, assertFail) =>
        if assertFail then { s with fatal := true }
        else if newWeight ≠ bbMaxWeight ∧ bDst.bbWeight ≠ newWeight then
          { s with
            blocks := updNth (fun b =>
              { b with bbWeight := newWeight, runRarely := decide (newWeight = 0) }) d s.blocks,
            changed := true }
        else s
    else s

/-- The return-weight accumulation half of one block's propagation step
(fgprofile.cpp:940-947). -/
def propagateReturnAcc (d : Nat) (s : PropState) : PropState :=
  match s.blocks.get? d with
  | none => s
  | some bDst =>
    if bDst.hasProfileWeight ∧
       (bDst.bbJumpKind = BBjumpKind.BBJ_RETURN ∨ bDst.bbJumpKind = BBjumpKind.BBJ_THROW)
    then { s with returnWeight := s.returnWeight + bDst.bbWeight }
    else s

/-- One block's step of a propagation pass (fgprofile.cpp:862-947). -/
def propagateBlock (preds : List (List Nat)) (d : Nat) (s : PropState) : PropState :=
  if s.fatal then s
  else
    let s1 := propagateAssign preds d s
    if s1.fatal then s1 else propagateReturnAcc d s1

/-- One full propagation pass over all blocks, with `changed = false` and
`returnWeight = 0` at entry to the pass. -/
def propagatePass (preds : List (List Nat)) (blocks : List BasicBlock) : PropState :=
  (List.range blocks.length).foldl (fun s d => propagateBlock preds d s)
    { blocks := blocks, changed := false, returnWeight := 0, fatal := false }

/-- The bounded do-while of `fgComputeMissingBlockWeights`
(fgprofile.cpp:856-952): repeat passes while something changed, at most 10
iterations.  `fuel` is the number of iterations still allowed. -/
def propLoop (preds : List (List Nat)) : Nat → List BasicBlock → PropState
  | 0, blocks => { blocks := blocks, changed := false, returnWeight := 0, fatal := false }
  | fuel + 1, blocks =>
    let s := propagatePass preds blocks
    if s.fatal then s
    else if s.changed ∧ fuel ≠ 0 then propLoop preds fuel s.blocks
    else s

/-- `Compiler::fgComputeMissingBlockWeights` (fgprofile.cpp:843). -/
def fgComputeMissingBlockWeights (g : FlowGraph) : PropState :=
  propLoop g.preds 10 g.blocks

/-! ## fgComputeCalledCount -/

/-- `BasicBlock::setBBProfileWeight`.
Modelled from the spec: this setter lives outside this translation unit; per
the data-model invariants, a weight assigned from the method call count for
the scratch entry block marks the block as carrying a profile-derived weight,
so the setter stores the weight and sets `BBF_PROF_WEIGHT`. -/
def setBBProfileWeight (b : BasicBlock) (w : Weight) : BasicBlock :=
  { b with bbWeight := w, hasProfileWeight := true }

/-- Index of the first non-`BBF_INTERNAL` block (the `firstILBlock` scan of
fgprofile.cpp:979-992); `none` when every block is internal (the C++ scan
would run off the end of the block list). -/
def findFirstNonInternal : List BasicBlock → Option (Nat × BasicBlock)
  | [] => none
  | b :: rest =>
    if b.internal then
      match findFirstNonInternal rest with
      | some (i, fb) => some (i + 1, fb)
      | none => none
    else some (0, b)

/-- Result of `fgComputeCalledCount`. -/
structure CalledCountOut where
  blocks : List BasicBlock
  fgCalledCount : Weight
  fatal : Bool
  deriving Repr

/-- `Compiler::fgComputeCalledCount` (fgprofile.cpp:973).  `firstBBisScratch`
models `fgFirstBBisScratch()`. -/
def fgComputeCalledCount (g : FlowGraph) (firstBBisScratch : Bool)
    (returnWeight : Weight) : CalledCountOut :=
  match findFirstNonInternal g.blocks with
  | none => { blocks := g.blocks, fgCalledCount := 0, fatal := true }
  | some (f, fb) =>
    let called : Weight :=
      if (g.preds.getD f []).length = 1 ∨ returnWeight = 0 then fb.bbWeight else returnWeight
    let blocks' :=
      if firstBBisScratch then
        updNth (fun b0 =>
          let b1 := setBBProfileWeight b0 called
          { b1 with runRarely := b1.bbWeight = 0 }) 0 g.blocks
      else g.blocks
    { blocks := blocks', fgCalledCount := called, fatal := false }

/-! ## fgInstrumentMethod (the Instrumenter) -/

instance : Inhabited PgoSchemaEntry :=
  ⟨{ InstrumentationKind := PgoInstrumentationKind.BasicBlockIntCount,
     ILOffset := 0, Count := 0, Other := 0, Offset := 0 }⟩

/-- `ICorJitInfo::ClassProfile::CLASS_FLAG`.
Modelled from the spec: the flag-bit values live in the Host interface header
outside this translation unit; the spec fixes only that they are bits shared
with the Host. -/
def classProfileClassFlag : Nat := 2 ^ 31

/-- `ICorJitInfo::ClassProfile::INTERFACE_FLAG`.
Modelled from the spec: see `classProfileClassFlag`. -/
def classProfileInterfaceFlag : Nat := 2 ^ 30

/-- `ICorJitInfo::ClassProfile::SIZE` (the histogram size).
Modelled from the spec: an implementation-defined constant of the Host
interface. -/
def classProfileHistogramSize : Nat := 32

/-- The two schema entries one class-probe candidate contributes
(`BuildClassProbeSchemaGen::operator()`, fgprofile.cpp:297-321). -/
def classProbeSchema (call : ProbeCall) : List PgoSchemaEntry :=
  let other := classProfileClassFlag |||
    (if call.isVirtualStub then classProfileInterfaceFlag else 0)
  [{ InstrumentationKind := PgoInstrumentationKind.TypeHandleHistogramCount,
     ILOffset := call.ilOffset, Count := 1, Other := other, Offset := 0 },
   { InstrumentationKind := PgoInstrumentationKind.TypeHandleHistogramTypeHandle,
     ILOffset := call.ilOffset, Count := classProfileHistogramSize, Other := other, Offset := 0 }]

/-- One block's contribution during phase 1 of `fgInstrumentMethod`
(fgprofile.cpp:277-354): class-probe entry pairs for `HAS_CLASS_PROFILE`
blocks, then a `BasicBlockIntCount` entry for non-internal blocks. -/
def buildSchemaStep (acc : List PgoSchemaEntry × Nat) (b : BasicBlock) :
    List PgoSchemaEntry × Nat :=
  if ¬ b.imported then acc
  else
    let s1 := acc.1 ++
      (if b.hasClassProfile then (b.probeCalls.map classProbeSchema).flatten else [])
    if b.internal then (s1, acc.2)
    else
      (s1 ++ [{ InstrumentationKind := PgoInstrumentationKind.BasicBlockIntCount,
                ILOffset := b.bbCodeOffs, Count := 1, Other := 0, Offset := 0 }],
       acc.2 + 1)

/-- Phase 1 of `fgInstrumentMethod` (fgprofile.cpp:275-354): one pre-order
walk building the schema; returns it with `countOfBlocks`, the number of
imported non-internal blocks. -/
def buildSchema (blocks : List BasicBlock) : List PgoSchemaEntry × Nat :=
  blocks.foldl buildSchemaStep ([], 0)

/-- Host answer to `allocPgoInstrumentationBySchema`. -/
inductive AllocStatus where
  | OK
  | NOT_IMPLEMENTED
  | OTHER_FAILURE
  deriving Repr, DecidableEq

/-- The Host side of counter allocation: a status, the buffer base, and the
`Offset` the Host writes into the i-th schema entry on success. -/
structure Host where
  status : AllocStatus
  profileMemory : Nat
  entryOffset : Nat → Nat

/-- Write the Host-assigned offsets into the schema, starting at entry `i`. -/
def assignOffsetsFrom (off : Nat → Nat) : Nat → List PgoSchemaEntry → List PgoSchemaEntry
  | _, [] => []
  | i, e :: rest => { e with Offset := off i } :: assignOffsetsFrom off (i + 1) rest

/-- The configuration flags `fgInstrumentMethod` reads. -/
structure InstrConfig where
  jitMinimalProfiling : Bool
  jitClassProfiling : Bool
  isPrejit : Bool
  isReadyToRun : Bool
  compClassProbeCount : Nat
  deriving Repr, DecidableEq

/-- `ClassProbeInserter::operator()` for one call (fgprofile.cpp:457-517):
when instrumenting, consume two schema slots, allocate a `this` temp and
rewrite the call; always restore the stub address.  Returns the updated call,
the new schema cursor and the number of temps grabbed. -/
def classProbeInsert (schema : List PgoSchemaEntry) (profileMemory : Nat)
    (instrument : Bool) (cursor : Nat) (call : ProbeCall) : ProbeCall × Nat × Nat :=
  if instrument then
    let classProfile := (schema.getD cursor default).Offset + profileMemory
    ({ call with thisRewritten := true, classProfileAddr := classProfile,
                 gtStubCallStubAddr := call.probeStubAddr },
     cursor + 2, 1)
  else
    ({ call with gtStubCallStubAddr := call.probeStubAddr }, cursor, 0)

/-- Process all class-probe calls of one block in visit order; returns the
updated calls, new cursor, temps grabbed, and `m_count`. -/
def probeFold (schema : List PgoSchemaEntry) (profileMemory : Nat) (instrument : Bool) :
    Nat → List ProbeCall → List ProbeCall × Nat × Nat × Nat
  | cursor, [] => ([], cursor, 0, 0)
  | cursor, c :: rest =>
    let (c', cur1, t1) := classProbeInsert schema profileMemory instrument cursor c
    let (rest', cur2, t2, n) := probeFold schema profileMemory instrument cur1 rest
    (c' :: rest', cur2, t1 + t2, n + 1)

/-- State threaded through the second CFG walk of `fgInstrumentMethod`.
`idx` is the index of the next block to visit. -/
structure InstrWalkState where
  out : List BasicBlock
  idx : Nat
  cursor : Nat
  blocksLeft : Int
  callsLeft : Int
  temps : Nat
  counterStmts : List (Nat × Nat)
  firstAddr : Nat

/-- One block of the second walk (fgprofile.cpp:413-575). -/
def instrWalkBlock (cfg : InstrConfig) (schema : List PgoSchemaEntry)
    (profileMemory : Nat) (instrument : Bool) (st : InstrWalkState)
    (b : BasicBlock) : InstrWalkState :=
  if ¬ b.imported then { st with out := st.out ++ [b], idx := st.idx + 1 }
  else
    let (b1, st1) :=
      if cfg.jitClassProfiling ∧ b.hasClassProfile then
        let (calls', cur', temps', n) :=
          probeFold schema profileMemory instrument st.cursor b.probeCalls
        ({ b with probeCalls := calls' },
         { st with cursor := cur', temps := st.temps + temps',
                   callsLeft := st.callsLeft - (n : Int) })
      else (b, st)
    if b1.internal then { st1 with out := st1.out ++ [b1], idx := st1.idx + 1 }
    else
      let st2 := { st1 with blocksLeft := st1.blocksLeft - 1 }
      if instrument then
        let addr := (schema.getD st2.cursor default).Offset + profileMemory
        { st2 with
          out := st2.out ++ [b1], idx := st2.idx + 1,
          cursor := st2.cursor + 1,
          firstAddr := if st2.firstAddr = 0 then addr else st2.firstAddr,
          counterStmts := st2.counterStmts ++ [(st2.idx, addr)] }
      else { st2 with out := st2.out ++ [b1], idx := st2.idx + 1 }

/-- Result of `fgInstrumentMethod`.  `counterStmts` lists the per-block
counter-increment statements inserted (block index, counter address) in
insertion order; `entryCounterAddr` is `addrOfFirstExecutionCount`. -/
structure InstrResult where
  blocks : List BasicBlock
  schema : List PgoSchemaEntry
  allocationRequested : Bool
  instrument : Bool
  returnedEarly : Bool
  fatal : Bool
  temps : Nat
  counterStmts : List (Nat × Nat)
  entryCounterAddr : Nat
  prejitHookInserted : Bool

/-- `Compiler::fgInstrumentMethod` (fgprofile.cpp:267). -/
def fgInstrumentMethod (cfg : InstrConfig) (host : Host)
    (blocks : List BasicBlock) : InstrResult :=
  let (schema0, countOfBlocks) := buildSchema blocks
  let countOfCalls : Int := (cfg.compClassProbeCount : Int)
  if cfg.jitMinimalProfiling ∧ countOfBlocks < 3 ∧ countOfCalls = 0 then
    { blocks := blocks, schema := schema0, allocationRequested := false,
      instrument := false, returnedEarly := true, fatal := false, temps := 0,
      counterStmts := [], entryCounterAddr := 0, prejitHookInserted := false }
  else
    match host.status with
    | AllocStatus.OTHER_FAILURE =>
      { blocks := blocks, schema := schema0, allocationRequested := true,
        instrument := false, returnedEarly := false, fatal := true, temps := 0,
        counterStmts := [], entryCounterAddr := 0, prejitHookInserted := false }
    | status =>
      let instrument := status = AllocStatus.OK
      let schema1 :=
        if instrument then assignOffsetsFrom host.entryOffset 0 schema0 else schema0
      let stF := blocks.foldl
        (instrWalkBlock cfg schema1 host.profileMemory instrument)
        { out := [], idx := 0, cursor := 0, blocksLeft := (countOfBlocks : Int),
          callsLeft := countOfCalls, temps := 0, counterStmts := [], firstAddr := 0 }
      if ¬ instrument then
        { blocks := stF.out, schema := schema1, allocationRequested := true,
          instrument := false, returnedEarly := false, fatal := false,
          temps := stF.temps, counterStmts := stF.counterStmts,
          entryCounterAddr := stF.firstAddr, prejitHookInserted := false }
      else
        { blocks := stF.out, schema := schema1, allocationRequested := true,
          instrument := true, returnedEarly := false,
          fatal := ¬ (stF.blocksLeft = 0 ∧ stF.callsLeft = 0),
          temps := stF.temps, counterStmts := stF.counterStmts,
          entryCounterAddr := stF.firstAddr,
          prejitHookInserted := cfg.isPrejit }

/-! ## fgComputeEdgeWeights (the EdgeSolver)

A predecessor edge carries its source block index and its weight range.  The
solver threads a state holding the per-block predecessor lists, the
accumulated `usedSlop` flag (`*wbUsedSlop`), the `inconsistentProfileData`
flag, and a `fatal` flag recording that a (release-mode) `noway_assert` fired
or a null pointer was dereferenced, which aborts the compilation; once
`fatal` is set the residual state is immaterial.

`GetSlopFraction` lives outside this translation unit and is passed in as the
parameter `sf` (modelled from the spec: a per-edge slop fraction proportional
to endpoint weights; the solver always adds 1 to it). -/

/-- One `flowList` entry of a `bbPreds` list: source block and weight range. -/
structure PredEdge where
  src : Nat
  range : EdgeRange
  deriving Repr, DecidableEq

/-- Solver state. -/
structure SolverState where
  preds : List (List PredEdge)
  usedSlop : Bool
  inconsistent : Bool
  fatal : Bool
  deriving Repr

/-- Read the `i`-th predecessor edge of block `d`. -/
def getEdge (preds : List (List PredEdge)) (d i : Nat) : Option PredEdge :=
  (preds.getD d []).get? i

/-- Replace the range of the `i`-th predecessor edge of block `d`. -/
def setRangeAt (preds : List (List PredEdge)) (d i : Nat) (r : EdgeRange) :
    List (List PredEdge) :=
  updNth (fun l => updNth (fun e => { e with range := r }) i l) d preds

/-- Apply `setEdgeWeightMinChecked` to the edge at `(d, i)`, merging
`usedSlop` into the state and returning the call's `bool` result. -/
def setMinAt (s : SolverState) (d i : Nat) (w slop : Weight) : SolverState × Bool :=
  match getEdge s.preds d i with
  | none => ({ s with fatal := true }, false)
  | some e =>
    let o := setEdgeWeightMinChecked e.range w slop
    ({ s with preds := setRangeAt s.preds d i o.range,
              usedSlop := s.usedSlop || o.usedSlop }, o.ok)

/-- Apply `setEdgeWeightMaxChecked` to the edge at `(d, i)`. -/
def setMaxAt (s : SolverState) (d i : Nat) (w slop : Weight) : SolverState × Bool :=
  match getEdge s.preds d i with
  | none => ({ s with fatal := true }, false)
  | some e =>
    let o := setEdgeWeightMaxChecked e.range w slop
    ({ s with preds := setRangeAt s.preds d i o.range,
              usedSlop := s.usedSlop || o.usedSlop }, o.ok)

/-- The capping step used twice during initialization (fgprofile.cpp:1103-1107
and 1124-1135): if the edge's current maximum exceeds `W`, lower it with the
checked setter. -/
def capEdge (d i : Nat) (W slop : Weight) (s1 : SolverState) : SolverState × Bool :=
  match getEdge s1.preds d i with
  | some e1 =>
    if e1.range.flEdgeWeightMax > W then setMaxAt s1 d i W slop
    else (s1, true)
  | none => ({ s1 with fatal := true }, false)

/-- Initialization of one edge (fgprofile.cpp:1074-1135): reset if either
endpoint lacks a profile weight, dispatch on the source's jump kind, then cap
the maximum by the (entry-adjusted) destination weight. -/
def initEdge (blocks : List BasicBlock) (called : Weight) (sf : Nat → Nat → Weight)
    (d i : Nat) (s : SolverState) : SolverState :=
  if s.inconsistent || s.fatal then s
  else
    match blocks.get? d, getEdge s.preds d i with
    | some bDst, some e =>
      match blocks.get? e.src with
      | none => { s with fatal := true }
      | some bSrc =>
        let bDstWeight := bDst.bbWeight - (if d = 0 then called else 0)
        let s0 :=
          if ¬ bSrc.hasProfileWeight ∨ ¬ bDst.hasProfileWeight then
            { s with preds := setRangeAt s.preds d i (setEdgeWeights bbZeroWeight bbMaxWeight) }
          else s
        let slop := sf e.src d + 1
        let p1 :=
          match bSrc.bbJumpKind with
          | BBjumpKind.BBJ_ALWAYS | BBjumpKind.BBJ_EHCATCHRET
          | BBjumpKind.BBJ_NONE | BBjumpKind.BBJ_CALLFINALLY =>
            let pA := setMinAt s0 d i bSrc.bbWeight slop
            let pB := setMaxAt pA.1 d i bSrc.bbWeight slop
            (pB.1, pA.2 && pB.2)
          | BBjumpKind.BBJ_COND | BBjumpKind.BBJ_SWITCH
          | BBjumpKind.BBJ_EHFINALLYRET | BBjumpKind.BBJ_EHFILTERRET =>
            capEdge d i bSrc.bbWeight slop s0
          | _ => ({ s0 with fatal := true }, false)
        let p2 := capEdge d i bDstWeight slop p1.1
        if p1.2 && p2.2 then p2.1 else { p2.1 with inconsistent := true }
    | _, _ => s

/-- Initialization over one block's predecessor list. -/
def initBlock (blocks : List BasicBlock) (called : Weight) (sf : Nat → Nat → Weight)
    (d : Nat) (s : SolverState) : SolverState :=
  (List.range (s.preds.getD d []).length).foldl
    (fun s' i => initEdge blocks called sf d i s') s

/-- The full initialization pass (fgprofile.cpp:1062-1136). -/
def initPass (blocks : List BasicBlock) (called : Weight) (sf : Nat → Nat → Weight)
    (s : SolverState) : SolverState :=
  (List.range blocks.length).foldl (fun s' d => initBlock blocks called sf d s') s

/-- The total number of predecessor edges (`fgEdgeCount` as counted by the
completed initialization pass). -/
def numEdgesOf (preds : List (List PredEdge)) (numBlocks : Nat) : Nat :=
  ((List.range numBlocks).map (fun d => (preds.getD d []).length)).sum

/-- `fgGetPredForBlock(target, src)`: position of the first edge from `src`
in `target`'s predecessor list. -/
def findPredLoc (preds : List (List PredEdge)) (t : Option Nat) (src : Nat) :
    Option (Nat × Nat) :=
  match t with
  | none => none
  | some tb =>
    match (preds.getD tb []).findIdx? (fun e => e.src == src) with
    | some j => some (tb, j)
    | none => none

/-- The second half of the two-edge reconciliation (fgprofile.cpp:1188-1214):
re-read both edges, compare the source weight against the other pairing of
the bounds, and adjust, marking the profile inconsistent if a checked setter
failed. -/
def reconSecond (bSrcW slop : Weight) (d i t j : Nat) (pA : SolverState × Bool) :
    SolverState :=
  match getEdge pA.1.preds d i, getEdge pA.1.preds t j with
  | some e1, some eo1 =>
    let diff2 := bSrcW - (eo1.range.flEdgeWeightMin + e1.range.flEdgeWeightMax)
    let pB :=
      if diff2 > 0 then
        setMinAt pA.1 t j (eo1.range.flEdgeWeightMin + diff2) slop
      else if diff2 < 0 then
        setMaxAt pA.1 d i (e1.range.flEdgeWeightMax + diff2) slop
      else (pA.1, true)
    if pA.2 && pB.2 then pB.1 else { pB.1 with inconsistent := true }
  | _, _ => { pA.1 with fatal := true }

/-- The body of the two-edge reconciliation once the `BBJ_COND` source is in
hand (fgprofile.cpp:1160-1214): locate the sibling edge, check both ranges,
then adjust first one pairing of the bounds and then the other. -/
def reconCore (numBlocks : Nat) (sf : Nat → Nat → Weight) (d i : Nat)
    (e : PredEdge) (bSrc : BasicBlock) (s : SolverState) : SolverState :=
  let otherLoc :=
    if bbNextIdx numBlocks e.src = some d then
      findPredLoc s.preds bSrc.bbJumpDest e.src
    else
      findPredLoc s.preds (bbNextIdx numBlocks e.src) e.src
  match otherLoc with
  | none => { s with fatal := true }
  | some (t, j) =>
    match getEdge s.preds t j with
    | none => { s with fatal := true }
    | some eo =>
      if ¬ (e.range.flEdgeWeightMin ≤ e.range.flEdgeWeightMax ∧
            eo.range.flEdgeWeightMin ≤ eo.range.flEdgeWeightMax) then
        { s with fatal := true }
      else
        let slop := sf e.src d + 1
        let diff := bSrc.bbWeight -
          (e.range.flEdgeWeightMin + eo.range.flEdgeWeightMax)
        let pA :=
          if diff > 0 then
            setMinAt s d i (e.range.flEdgeWeightMin + diff) slop
          else if diff < 0 then
            setMaxAt s t j (eo.range.flEdgeWeightMax + diff) slop
          else (s, true)
        reconSecond bSrc.bbWeight slop d i t j pA

/-- Two-edge reconciliation at a `BBJ_COND` source for the edge at `(d, i)`
(fgprofile.cpp:1151-1214). -/
def reconEdge (blocks : List BasicBlock) (sf : Nat → Nat → Weight)
    (d i : Nat) (s : SolverState) : SolverState :=
  if s.inconsistent || s.fatal then s
  else
    match getEdge s.preds d i with
    | none => s
    | some e =>
      match blocks.get? e.src with
      | none => { s with fatal := true }
      | some bSrc =>
        if bSrc.bbJumpKind ≠ BBjumpKind.BBJ_COND then s
        else reconCore blocks.length sf d i e bSrc s

/-- Reconciliation over one block's predecessor list. -/
def reconBlock (blocks : List BasicBlock) (sf : Nat → Nat → Weight)
    (d : Nat) (s : SolverState) : SolverState :=
  (List.range (s.preds.getD d []).length).foldl
    (fun s' i => reconEdge blocks sf d i s') s

/-- The reconciliation pass of one refinement iteration
(fgprofile.cpp:1149-1216). -/
def reconPass (blocks : List BasicBlock) (sf : Nat → Nat → Weight)
    (s : SolverState) : SolverState :=
  (List.range blocks.length).foldl (fun s' d => reconBlock blocks sf d s') s

/-- Outcome of the per-destination balance step on one edge. -/
structure EdgeStepOut where
  edge : PredEdge
  ok : Bool
  usedSlop : Bool
  good : Bool
  fatal : Bool
  deriving Repr, DecidableEq

/-- The minimum-raising half of the per-destination balance step
(fgprofile.cpp:1272-1281): when the destination weight covers the other
edges' maxima and the implied lower bound beats the current minimum, apply
the checked minimum setter. -/
def perDestEdgeMin (destW otherMax slop : Weight) (r : EdgeRange) : SetOut :=
  if destW ≥ otherMax ∧ destW - otherMax > r.flEdgeWeightMin then
    setEdgeWeightMinChecked r (destW - otherMax) slop
  else { range := r, ok := true, usedSlop := false }

/-- The maximum-lowering half of the per-destination balance step
(fgprofile.cpp:1283-1292). -/
def perDestEdgeMax (destW otherMin slop : Weight) (r : EdgeRange) : SetOut :=
  if destW ≥ otherMin ∧ destW - otherMin < r.flEdgeWeightMax then
    setEdgeWeightMaxChecked r (destW - otherMin) slop
  else { range := r, ok := true, usedSlop := false }

/-- The per-destination balance step for one in-edge
(fgprofile.cpp:1254-1315): possibly raise the edge minimum using the other
edges' maxima, possibly lower the edge maximum using the other edges'
minima; the sums `Smin`/`Smax` were computed before the block's edges were
updated.  The leading condition models the two release-mode `noway_assert`s
on the sums. -/
def perDestEdge (destW Smin Smax slop : Weight) (e : PredEdge) : EdgeStepOut :=
  if ¬ (Smax ≥ e.range.flEdgeWeightMax ∧ Smin ≥ e.range.flEdgeWeightMin) then
    { edge := e, ok := true, usedSlop := false, good := false, fatal := true }
  else
    let o1 := perDestEdgeMin destW (Smax - e.range.flEdgeWeightMax) slop e.range
    let o2 := perDestEdgeMax destW (Smin - e.range.flEdgeWeightMin) slop o1.range
    { edge := { e with range := o2.range }, ok := o1.ok && o2.ok,
      usedSlop := o1.usedSlop || o2.usedSlop,
      good := o2.range.flEdgeWeightMin == o2.range.flEdgeWeightMax, fatal := false }

/-- Outcome of the per-destination balance step on a whole predecessor list. -/
structure ListStepOut where
  edges : List PredEdge
  ok : Bool
  usedSlop : Bool
  good : Nat
  incomplete : Bool
  fatal : Bool
  deriving Repr, DecidableEq

/-- Per-destination balance over a predecessor list, stopping at the first
failed checked setter (the `goto EARLY_EXIT`), so later edges keep their
current ranges. -/
def perDestEdgeList (destW Smin Smax : Weight) (slopOf : PredEdge → Weight) :
    List PredEdge → ListStepOut
  | [] =>
    { edges := [], ok := true, usedSlop := false, good := 0,
      incomplete := false, fatal := false }
  | e :: rest =>
    let o := perDestEdge destW Smin Smax (slopOf e) e
    if o.fatal then
      { edges := o.edge :: rest, ok := true, usedSlop := o.usedSlop, good := 0,
        incomplete := false, fatal := true }
    else if ¬ o.ok then
      { edges := o.edge :: rest, ok := false, usedSlop := o.usedSlop, good := 0,
        incomplete := false, fatal := false }
    else
      let r := perDestEdgeList destW Smin Smax slopOf rest
      { edges := o.edge :: r.edges, ok := r.ok, usedSlop := o.usedSlop || r.usedSlop,
        good := (if o.good then 1 else 0) + r.good,
        incomplete := (! o.good) || r.incomplete, fatal := r.fatal }

/-- Sum of `flEdgeWeightMin` over a predecessor list. -/
def sumMin (l : List PredEdge) : Weight :=
  (l.map (fun e => e.range.flEdgeWeightMin)).sum

/-- Sum of `flEdgeWeightMax` over a predecessor list. -/
def sumMax (l : List PredEdge) : Weight :=
  (l.map (fun e => e.range.flEdgeWeightMax)).sum

/-- The per-destination balance step of one block (fgprofile.cpp:1218-1318):
check `BB_MAX_WEIGHT`, entry-adjust the destination weight, compute the
min/max sums, then process every in-edge.  Returns the new state with the
block's good-edge count and whether an incomplete edge was seen. -/
def perDestBlock (blocks : List BasicBlock) (called : Weight) (sf : Nat → Nat → Weight)
    (d : Nat) (s : SolverState) : SolverState × Nat × Bool :=
  if s.inconsistent || s.fatal then (s, 0, false)
  else
    match blocks.get? d with
    | none => (s, 0, false)
    | some bDst =>
      if bDst.bbWeight = bbMaxWeight then ({ s with inconsistent := true }, 0, false)
      else
        let destW := bDst.bbWeight - (if d = 0 then called else 0)
        let l := s.preds.getD d []
        let o := perDestEdgeList destW (sumMin l) (sumMax l) (fun e => sf e.src d + 1) l
        ({ s with preds := updNth (fun _ => o.edges) d s.preds,
                  usedSlop := s.usedSlop || o.usedSlop,
                  inconsistent := s.inconsistent || ! o.ok,
                  fatal := s.fatal || o.fatal },
         o.good, o.incomplete)

/-- The per-destination balance pass over the given block indices. -/
def perDestPass (blocks : List BasicBlock) (called : Weight) (sf : Nat → Nat → Weight) :
    List Nat → SolverState → SolverState × Nat × Bool
  | [], s => (s, 0, false)
  | d :: ds, s =>
    let (s1, g1, i1) := perDestBlock blocks called sf d s
    let (s2, g2, i2) := perDestPass blocks called sf ds s1
    (s2, g1 + g2, i1 || i2)

/-- The bounded refinement loop (fgprofile.cpp:1142-1328): each iteration
runs the reconciliation pass then the per-destination pass; stop on
inconsistency, on all edges good (with the `noway_assert` that nothing is
incomplete), when the good count stops growing, or after 8 iterations. -/
def solverLoop (blocks : List BasicBlock) (called : Weight) (sf : Nat → Nat → Weight)
    (numEdges : Nat) : Nat → Nat → SolverState → SolverState
  | 0, _, s => s
  | fuel + 1, goodPrev, s =>
    let s1 := reconPass blocks sf s
    let (s2, good, inc) := perDestPass blocks called sf (List.range blocks.length) s1
    if s2.inconsistent || s2.fatal then s2
    else if good = numEdges then (if inc then { s2 with fatal := true } else s2)
    else if inc ∧ good > goodPrev then solverLoop blocks called sf numEdges fuel good s2
    else s2

/-- The final scan for ranges still expressed in `[min..max]` form
(fgprofile.cpp:1364-1384). -/
def rangeUsedScan (preds : List (List PredEdge)) (numBlocks : Nat) : Bool :=
  (List.range numBlocks).any fun d =>
    (preds.getD d []).any fun e =>
      e.range.flEdgeWeightMin != e.range.flEdgeWeightMax

/-- Result of `fgComputeEdgeWeights`. -/
structure SolverResult where
  preds : List (List PredEdge)
  inconsistent : Bool
  fatal : Bool
  fgHaveValidEdgeWeights : Bool
  fgSlopUsedInEdgeWeights : Bool
  fgRangeUsedInEdgeWeights : Bool
  fgEdgeWeightsComputed : Bool
  deriving Repr

/-- The post-loop flag computation (fgprofile.cpp:1359-1388). -/
def mkSolverResult (numBlocks : Nat) (s : SolverState) : SolverResult :=
  { preds := s.preds, inconsistent := s.inconsistent, fatal := s.fatal,
    fgHaveValidEdgeWeights := ! s.inconsistent,
    fgSlopUsedInEdgeWeights := s.usedSlop,
    fgRangeUsedInEdgeWeights := rangeUsedScan s.preds numBlocks,
    fgEdgeWeightsComputed := true }

/-- `Compiler::fgComputeEdgeWeights` (fgprofile.cpp:1038).  `called` is
`fgCalledCount`; `initPreds` is the predecessor table with the edges'
current ranges. -/
def fgComputeEdgeWeights (blocks : List BasicBlock) (initPreds : List (List PredEdge))
    (called : Weight) (sf : Nat → Nat → Weight)
    (isOptimizing usingProfileWeights : Bool) : SolverResult :=
  if ¬ isOptimizing ∨ ¬ usingProfileWeights then
    { preds := initPreds, inconsistent := false, fatal := false,
      fgHaveValidEdgeWeights := false, fgSlopUsedInEdgeWeights := false,
      fgRangeUsedInEdgeWeights := false, fgEdgeWeightsComputed := false }
  else
    let s0 : SolverState :=
      { preds := initPreds, usedSlop := false, inconsistent := false, fatal := false }
    let s1 := initPass blocks called sf s0
    if s1.inconsistent || s1.fatal then mkSolverResult blocks.length s1
    else
      let numEdges := numEdgesOf s1.preds blocks.length
      mkSolverResult blocks.length (solverLoop blocks called sf numEdges 8 0 s1)

/-! ## Derived notions used to state the claims -/

/-- The number of imported, non-internal blocks (`countOfBlocks`). -/
def countImportedNonInternal (blocks : List BasicBlock) : Nat :=
  (blocks.filter (fun b => b.imported && ! b.internal)).length

/-- Restoring a probe call's stub address (fgprofile.cpp:516). -/
def restoreStub (c : ProbeCall) : ProbeCall :=
  { c with gtStubCallStubAddr := c.probeStubAddr }

/-- What the second walk does to one block when not instrumenting: restore
stub addresses in class-profile blocks (when class profiling is enabled),
touch nothing else. -/
def noInstrTransform (cfg : InstrConfig) (b : BasicBlock) : BasicBlock :=
  if ¬ b.imported then b
  else if cfg.jitClassProfiling ∧ b.hasClassProfile then
    { b with probeCalls := b.probeCalls.map restoreStub }
  else b

/-- All out-edges of block `b`: the entries with source `b` across every
predecessor list, in block order. -/
def outEdges (preds : List (List PredEdge)) (numBlocks b : Nat) : List PredEdge :=
  ((List.range numBlocks).map
    (fun d => (preds.getD d []).filter (fun e => e.src == b))).flatten

/-- Every edge range in the table is well formed (`0 ≤ min ≤ max`). -/
def PredsWF (preds : List (List PredEdge)) : Prop :=
  ∀ l ∈ preds, ∀ e ∈ l, EdgeRangeWF e.range

instance (preds : List (List PredEdge)) : Decidable (PredsWF preds) := by
  unfold PredsWF; infer_instance

/-- A solver state in which nothing has gone wrong and no slop was
consumed: `inconsistentProfileData` unset, no `noway_assert` fired, and
`*wbUsedSlop` never written. -/
def FlagsClear (s : SolverState) : Prop :=
  s.inconsistent = false ∧ s.fatal = false ∧ s.usedSlop = false

/-- The primitive state mutations the edge solver performs: the two checked
setters, the `[0, BB_MAX_WEIGHT]` reset, setting the fatal or inconsistent
flag, and one whole per-destination block step. -/
inductive SolverStep : SolverState → SolverState → Prop where
  | minAt (d i : Nat) (w slop : Weight) (s : SolverState) :
      SolverStep s (setMinAt s d i w slop).1
  | maxAt (d i : Nat) (w slop : Weight) (s : SolverState) :
      SolverStep s (setMaxAt s d i w slop).1
  | reset (d i : Nat) (s : SolverState) :
      SolverStep s
        { s with preds := setRangeAt s.preds d i (setEdgeWeights bbZeroWeight bbMaxWeight) }
  | fail (s : SolverState) : SolverStep s { s with fatal := true }
  | mark (s : SolverState) : SolverStep s { s with inconsistent := true }
  | perDest (blocks : List BasicBlock) (called : Weight) (sf : Nat → Nat → Weight)
      (d : Nat) (s : SolverState) :
      SolverStep s (perDestBlock blocks called sf d s).1

/-- A state reachable from another by solver mutations. -/
def SolverReach : SolverState → SolverState → Prop :=
  Relation.ReflTransGen SolverStep

/-- Claim C1 as stated: after `fgComputeEdgeWeights` terminates without
fatal error, without marking the profile inconsistent, and with no checked
setter consuming slop, every non-entry block with at least one in-edge has
`Σ min ≤ weight ≤ Σ max` over its in-edges, and every non-return, non-throw,
non-EH-boundary block has `Σ min ≤ weight ≤ Σ max` over its out-edges. -/
def C1ClaimStatement (blocks : List BasicBlock) (initPreds : List (List PredEdge))
    (called : Weight) (sf : Nat → Nat → Weight) : Prop :=
  let r := fgComputeEdgeWeights blocks initPreds called sf true true
  r.fatal = false → r.inconsistent = false → r.fgSlopUsedInEdgeWeights = false →
    (∀ d bb, d ≠ 0 → blocks.get? d = some bb → r.preds.getD d [] ≠ [] →
      sumMin (r.preds.getD d []) ≤ bb.bbWeight ∧
      bb.bbWeight ≤ sumMax (r.preds.getD d [])) ∧
    (∀ b bb, blocks.get? b = some bb →
      bb.bbJumpKind ≠ BBjumpKind.BBJ_RETURN → bb.bbJumpKind ≠ BBjumpKind.BBJ_THROW →
      bb.hasEHBoundaryOut = false →
      sumMin (outEdges r.preds blocks.length b) ≤ bb.bbWeight ∧
      bb.bbWeight ≤ sumMax (outEdges r.preds blocks.length b))

/-- Claim C4 as stated: in the weight-propagation step for an unprofiled
block `d` with predecessors, whose unique successor `n` has exactly one
in-edge (from `d`), the candidate `n.bbWeight` is produced only when `n`
carries a profile weight. -/
def C4ClaimStatement : Prop :=
  ∀ (g : FlowGraph) (d : Nat) (bb : BasicBlock) (n : Nat) (nb : BasicBlock),
    g.blocks.get? d = some bb →
    bb.hasProfileWeight = false →
    g.preds.getD d [] ≠ [] →
    uniqueSuccessor g.blocks.length bb d = some n →
    g.blocks.get? n = some nb →
    (g.preds.getD n []).length = 1 →
    (g.preds.getD n []).headD 0 = d →
    nb.hasProfileWeight = false →
    (missingWeightCandidate g.blocks g.preds d bb).1 ≠ nb.bbWeight

/-- The refutable core of claim C5: every block whose weight the propagator
assigned carries `HAS_PROFILE_WEIGHT` afterwards. -/
def C5ClaimStatement : Prop :=
  ∀ (g : FlowGraph) (d : Nat),
    ((fgComputeMissingBlockWeights g).blocks.get? d).map BasicBlock.bbWeight ≠
      (g.blocks.get? d).map BasicBlock.bbWeight →
    ((fgComputeMissingBlockWeights g).blocks.get? d).map BasicBlock.hasProfileWeight =
      some true

/-! ## Concrete flow graphs -/

/-- A profiled, imported, non-internal block with the given weight, jump kind
and jump target. -/
def mkBlock (w : Weight) (k : BBjumpKind) (dest : Option Nat) : BasicBlock :=
  { bbWeight := w, bbJumpKind := k, bbJumpDest := dest, hasProfileWeight := true,
    runRarely := false, imported := true, internal := false, hasClassProfile := false,
    bbCodeOffs := 0, hasEHBoundaryIn := false, hasEHBoundaryOut := false,
    probeCalls := [] }

/-- The default `[0, BB_MAX_WEIGHT]` edge range. -/
def initRange : EdgeRange := { flEdgeWeightMin := 0, flEdgeWeightMax := bbMaxWeight }

/-- A fresh predecessor edge from block `s`. -/
def freshEdge (s : Nat) : PredEdge := { src := s, range := initRange }

/-- The counterexample graph for C1.  Block 12 (`BBJ_RETURN`, weight 10) has
three `BBJ_COND` predecessors of weight 6 whose not-taken targets have
weight 0; block 3 (`BBJ_COND`, weight 10) branches to two weight-9 blocks;
block 0 (`BBJ_SWITCH`, weight 100) branches to two weight-10 blocks. -/
def cexC1Blocks : List BasicBlock :=
  [ mkBlock 100 BBjumpKind.BBJ_SWITCH none,
    mkBlock 10 BBjumpKind.BBJ_THROW none,
    mkBlock 10 BBjumpKind.BBJ_THROW none,
    mkBlock 10 BBjumpKind.BBJ_COND (some 5),
    mkBlock 9 BBjumpKind.BBJ_THROW none,
    mkBlock 9 BBjumpKind.BBJ_THROW none,
    mkBlock 6 BBjumpKind.BBJ_COND (some 12),
    mkBlock 0 BBjumpKind.BBJ_THROW none,
    mkBlock 6 BBjumpKind.BBJ_COND (some 12),
    mkBlock 0 BBjumpKind.BBJ_THROW none,
    mkBlock 6 BBjumpKind.BBJ_COND (some 12),
    mkBlock 0 BBjumpKind.BBJ_THROW none,
    mkBlock 10 BBjumpKind.BBJ_RETURN none ]

/-- Predecessor lists of the C1 counterexample graph. -/
def cexC1Preds : List (List PredEdge) :=
  [ [], [freshEdge 0], [freshEdge 0], [], [freshEdge 3], [freshEdge 3],
    [], [freshEdge 6], [], [freshEdge 8], [], [freshEdge 10],
    [freshEdge 6, freshEdge 8, freshEdge 10] ]

/-- The diamond of spec scenario S4: `B1 (100, COND) → {B2 (30), B3 (70)} →
B4 (100, RETURN)`. -/
def diamondBlocks : List BasicBlock :=
  [ mkBlock 100 BBjumpKind.BBJ_COND (some 2),
    mkBlock 30 BBjumpKind.BBJ_ALWAYS (some 3),
    mkBlock 70 BBjumpKind.BBJ_NONE none,
    mkBlock 100 BBjumpKind.BBJ_RETURN none ]

/-- Predecessor lists of the diamond graph. -/
def diamondPreds : List (List PredEdge) :=
  [ [], [freshEdge 0], [freshEdge 0], [freshEdge 1, freshEdge 2] ]

/-- Counterexample graph for C4: `B0 (COND, profiled) → B1 (NONE, unprofiled,
weight 100) → B2 (RETURN, unprofiled, weight 7)`.  Rule A does not apply to
`B1` (its predecessor is a `BBJ_COND`); Rule B applies with the unprofiled
successor `B2`. -/
def cexC4Graph : FlowGraph :=
  { blocks :=
      [ mkBlock 1 BBjumpKind.BBJ_COND (some 2),
        { mkBlock 100 BBjumpKind.BBJ_NONE none with hasProfileWeight := false },
        { mkBlock 7 BBjumpKind.BBJ_RETURN none with hasProfileWeight := false } ],
    preds := [ [], [0], [1] ] }

/-- Counterexample graph for C5 (spec scenario S3): `B0 (NONE, profiled,
weight 100) → B1 (NONE, unprofiled, weight 50) → B2 (RETURN, profiled,
weight 100)`.  The propagator assigns weight 100 to `B1`. -/
def cexC5Graph : FlowGraph :=
  { blocks :=
      [ mkBlock 100 BBjumpKind.BBJ_NONE none,
        { mkBlock 50 BBjumpKind.BBJ_NONE none with hasProfileWeight := false },
        mkBlock 100 BBjumpKind.BBJ_RETURN none ],
    preds := [ [], [0], [1] ] }

/-- C6 witness configuration: class profiling on, minimal profiling off. -/
def cexC6Config : InstrConfig :=
  { jitMinimalProfiling := false, jitClassProfiling := true, isPrejit := false,
    isReadyToRun := false, compClassProbeCount := 1 }

/-- C6 witness Host: allocation answers `NOT_IMPLEMENTED`. -/
def cexC6Host : Host :=
  { status := AllocStatus.NOT_IMPLEMENTED, profileMemory := 0, entryOffset := fun _ => 0 }

/-- C6 witness blocks: one imported class-profile block with one probe call. -/
def cexC6Blocks : List BasicBlock :=
  [{ mkBlock 5 BBjumpKind.BBJ_RETURN none with
     hasClassProfile := true,
     probeCalls := [{ ilOffset := 0, probeStubAddr := 77, gtStubCallStubAddr := 1,
                      thisRewritten := false, classProfileAddr := 0,
                      isVirtualStub := true }] }]

/-! ## Theorems -/

/-- A successful `setEdgeWeightMinChecked` call that did not use slop was the
in-range case: the new weight lies in the old range and only the minimum
moved. -/
theorem setMin_ok_noSlop (r : EdgeRange) (w slop : Weight)
    (hok : (setEdgeWeightMinChecked r w slop).ok = true)
    (hs : (setEdgeWeightMinChecked r w slop).usedSlop = false) :
    (r.flEdgeWeightMin ≤ w ∧ w ≤ r.flEdgeWeightMax) ∧
    (setEdgeWeightMinChecked r w slop).range =
      { flEdgeWeightMin := w, flEdgeWeightMax := r.flEdgeWeightMax } := by
  unfold setEdgeWeightMinChecked at hok hs ⊢
  split_ifs at hok hs ⊢ <;> simp_all

/-- A successful `setEdgeWeightMaxChecked` call that did not use slop was the
in-range case: the new weight lies in the old range and only the maximum
moved. -/
theorem setMax_ok_noSlop (r : EdgeRange) (w slop : Weight)
    (hok : (setEdgeWeightMaxChecked r w slop).ok = true)
    (hs : (setEdgeWeightMaxChecked r w slop).usedSlop = false) :
    (r.flEdgeWeightMin ≤ w ∧ w ≤ r.flEdgeWeightMax) ∧
    (setEdgeWeightMaxChecked r w slop).range =
      { flEdgeWeightMin := r.flEdgeWeightMin, flEdgeWeightMax := w } := by
  unfold setEdgeWeightMaxChecked at hok hs ⊢
  split_ifs at hok hs ⊢ <;> simp_all

/-- Any `setEdgeWeightMinChecked` call that did not use slop preserves
well-formedness of the range. -/
theorem setMin_noSlop_WF (r : EdgeRange) (w slop : Weight)
    (hs : (setEdgeWeightMinChecked r w slop).usedSlop = false)
    (hwf : EdgeRangeWF r) : EdgeRangeWF (setEdgeWeightMinChecked r w slop).range := by
  obtain ⟨h0, hmm⟩ := hwf
  unfold setEdgeWeightMinChecked at hs ⊢
  split_ifs at hs ⊢ <;> simp_all [EdgeRangeWF] <;>
    first
      | (constructor <;> linarith)
      | linarith

/-- Any `setEdgeWeightMaxChecked` call that did not use slop preserves
well-formedness of the range. -/
theorem setMax_noSlop_WF (r : EdgeRange) (w slop : Weight)
    (hs : (setEdgeWeightMaxChecked r w slop).usedSlop = false)
    (hwf : EdgeRangeWF r) : EdgeRangeWF (setEdgeWeightMaxChecked r w slop).range := by
  obtain ⟨h0, hmm⟩ := hwf
  unfold setEdgeWeightMaxChecked at hs ⊢
  split_ifs at hs ⊢ <;> simp_all [EdgeRangeWF] <;>
    first
      | (constructor <;> linarith)
      | linarith

/-- `setEdgeWeightMinChecked` preserves well-formedness and, on success,
leaves `max = 0` or `min ≤ newWeight ≤ max`. -/
theorem minChecked_wf_post (r : EdgeRange) (w slop : Weight)
    (hwf : EdgeRangeWF r) (hnew : 0 ≤ w) :
    EdgeRangeWF (setEdgeWeightMinChecked r w slop).range ∧
    ((setEdgeWeightMinChecked r w slop).ok = true →
      (setEdgeWeightMinChecked r w slop).range.flEdgeWeightMax = 0 ∨
      ((setEdgeWeightMinChecked r w slop).range.flEdgeWeightMin ≤ w ∧
       w ≤ (setEdgeWeightMinChecked r w slop).range.flEdgeWeightMax)) := by
  obtain ⟨h0, hmm⟩ := hwf
  unfold setEdgeWeightMinChecked
  split_ifs <;>
    refine ⟨?_, fun hok => ?_⟩ <;>
    simp_all [EdgeRangeWF] <;>
    first
      | (constructor <;> linarith)
      | (right; constructor <;> linarith)
      | (right; linarith)
      | (left; linarith)
      | linarith

/-- `setEdgeWeightMaxChecked` preserves well-formedness and, on success,
leaves `max = 0` or `min ≤ newWeight ≤ max`. -/
theorem maxChecked_wf_post (r : EdgeRange) (w slop : Weight)
    (hwf : EdgeRangeWF r) (hnew : 0 ≤ w) :
    EdgeRangeWF (setEdgeWeightMaxChecked r w slop).range ∧
    ((setEdgeWeightMaxChecked r w slop).ok = true →
      (setEdgeWeightMaxChecked r w slop).range.flEdgeWeightMax = 0 ∨
      ((setEdgeWeightMaxChecked r w slop).range.flEdgeWeightMin ≤ w ∧
       w ≤ (setEdgeWeightMaxChecked r w slop).range.flEdgeWeightMax)) := by
  obtain ⟨h0, hmm⟩ := hwf
  unfold setEdgeWeightMaxChecked
  split_ifs <;>
    refine ⟨?_, fun hok => ?_⟩ <;>
    simp_all [EdgeRangeWF] <;>
    first
      | (constructor <;> linarith)
      | (right; constructor <;> linarith)
      | (right; linarith)
      | (left; linarith)
      | linarith

/-- C2: for any edge range satisfying `0 ≤ min ≤ max` and any non-negative
`newWeight` and `slop`, both checked setters leave the range satisfying
`0 ≤ min ≤ max` whether they return true or false; and whenever a setter
returns true, afterwards either `max = 0` or `min ≤ newWeight ≤ max`. -/
theorem C2_checked_setters (r : EdgeRange) (newWeight slop : Weight)
    (hwf : EdgeRangeWF r) (hnew : 0 ≤ newWeight) (hslop : 0 ≤ slop) :
    (EdgeRangeWF (setEdgeWeightMinChecked r newWeight slop).range ∧
     EdgeRangeWF (setEdgeWeightMaxChecked r newWeight slop).range) ∧
    ((setEdgeWeightMinChecked r newWeight slop).ok = true →
      (setEdgeWeightMinChecked r newWeight slop).range.flEdgeWeightMax = 0 ∨
      ((setEdgeWeightMinChecked r newWeight slop).range.flEdgeWeightMin ≤ newWeight ∧
       newWeight ≤ (setEdgeWeightMinChecked r newWeight slop).range.flEdgeWeightMax)) ∧
    ((setEdgeWeightMaxChecked r newWeight slop).ok = true →
      (setEdgeWeightMaxChecked r newWeight slop).range.flEdgeWeightMax = 0 ∨
      ((setEdgeWeightMaxChecked r newWeight slop).range.flEdgeWeightMin ≤ newWeight ∧
       newWeight ≤ (setEdgeWeightMaxChecked r newWeight slop).range.flEdgeWeightMax)) := by
  obtain ⟨hm, hpm⟩ := minChecked_wf_post r newWeight slop hwf hnew
  obtain ⟨hx, hpx⟩ := maxChecked_wf_post r newWeight slop hwf hnew
  exact ⟨⟨hm, hx⟩, hpm, hpx⟩

/-- Witness for C2 at the concrete range `[1, 5]`, `newWeight = 3`,
`slop = 1`. -/
theorem C2_checked_setters_witness :
    (EdgeRangeWF { flEdgeWeightMin := (1 : ℚ), flEdgeWeightMax := 5 } ∧
       (0 : ℚ) ≤ 3 ∧ (0 : ℚ) ≤ 1) ∧
    ((EdgeRangeWF (setEdgeWeightMinChecked ⟨1, 5⟩ 3 1).range ∧
      EdgeRangeWF (setEdgeWeightMaxChecked ⟨1, 5⟩ 3 1).range) ∧
     ((setEdgeWeightMinChecked ⟨1, 5⟩ 3 1).ok = true →
       (setEdgeWeightMinChecked ⟨1, 5⟩ 3 1).range.flEdgeWeightMax = 0 ∨
       ((setEdgeWeightMinChecked ⟨1, 5⟩ 3 1).range.flEdgeWeightMin ≤ 3 ∧
        (3 : ℚ) ≤ (setEdgeWeightMinChecked ⟨1, 5⟩ 3 1).range.flEdgeWeightMax)) ∧
     ((setEdgeWeightMaxChecked ⟨1, 5⟩ 3 1).ok = true →
       (setEdgeWeightMaxChecked ⟨1, 5⟩ 3 1).range.flEdgeWeightMax = 0 ∨
       ((setEdgeWeightMaxChecked ⟨1, 5⟩ 3 1).range.flEdgeWeightMin ≤ 3 ∧
        (3 : ℚ) ≤ (setEdgeWeightMaxChecked ⟨1, 5⟩ 3 1).range.flEdgeWeightMax))) :=
  ⟨⟨by decide, by norm_num, by norm_num⟩,
   C2_checked_setters ⟨1, 5⟩ 3 1 (by decide) (by norm_num) (by norm_num)⟩

/-- The schema scan is the first-match search of the schema list. -/
theorem schemaScanWeight_eq_find (data : Nat → Nat) (schema : List PgoSchemaEntry)
    (offset : Nat) :
    schemaScanWeight data schema offset =
      (schema.find? (fun e =>
          e.InstrumentationKind == PgoInstrumentationKind.BasicBlockIntCount &&
          e.ILOffset == offset)).map
        (fun e => ((data e.Offset : ℕ) : ℚ)) := by
  induction schema with
  | nil => rfl
  | cons e rest ih =>
    by_cases h : e.InstrumentationKind = PgoInstrumentationKind.BasicBlockIntCount ∧
        e.ILOffset = offset
    · rw [schemaScanWeight, if_pos h, List.find?_cons_of_pos]
      · rfl
      · simp [h.1, h.2]
    · rw [schemaScanWeight, if_neg h, List.find?_cons_of_neg, ih]
      simp only [Bool.and_eq_true, beq_iff_eq]
      exact fun hc => h hc

/-- C3: with a zero stress seed, `fgGetProfileWeightForBasicBlock` fails
exactly when no profile data is available; when data is available it always
succeeds, yielding the 32-bit counter of the first schema entry of kind
`BasicBlockIntCount` at the requested IL offset, or weight 0 when no entry
matches. -/
theorem C3_profile_lookup (c : ProfileContext) (offset : Nat)
    (hseed : c.fgStressBBProf = 0) :
    (fgGetProfileWeightForBasicBlock c offset = none ↔ fgHaveProfileData c = false) ∧
    (∀ schema, c.fgPgoSchema = some schema → c.compIsForImportOnly = false →
      fgGetProfileWeightForBasicBlock c offset =
        some (((schema.find? (fun e =>
            e.InstrumentationKind == PgoInstrumentationKind.BasicBlockIntCount &&
            e.ILOffset == offset)).map
          (fun e => ((c.fgPgoData e.Offset : ℕ) : ℚ))).getD 0)) := by
  have hs' : ¬ c.fgStressBBProf ≠ 0 := by simp [hseed]
  constructor
  · unfold fgGetProfileWeightForBasicBlock
    rw [if_neg hs']
    by_cases hd : fgHaveProfileData c = false
    · simp [hd]
    · simp only [hd, if_false, iff_false]
      have : c.fgPgoSchema.isSome := by
        unfold fgHaveProfileData at hd
        rcases hio : c.compIsForImportOnly with _ | _ <;> simp [hio] at hd <;>
          simp_all [Option.isSome_iff_ne_none]
      rcases hsch : c.fgPgoSchema with _ | schema
      · rw [hsch] at this; simp at this
      · simp only [hsch]
        rcases hw : schemaScanWeight c.fgPgoData schema offset with _ | w <;> simp [hd]
  · intro schema hsch hio
    have hd : fgHaveProfileData c = true := by
      unfold fgHaveProfileData
      simp [hio, hsch]
    unfold fgGetProfileWeightForBasicBlock
    rw [if_neg hs']
    simp only [hd, Bool.true_eq_false, if_false, hsch]
    rw [← schemaScanWeight_eq_find]
    rcases hw : schemaScanWeight c.fgPgoData schema offset with _ | w <;> simp

/-- Witness for C3: a one-entry schema matching offset 7 with counter value
42, and the import-only no-data case. -/
theorem C3_profile_lookup_witness :
    (fgGetProfileWeightForBasicBlock
        { compIsForImportOnly := false,
          fgPgoSchema := some [{ InstrumentationKind := PgoInstrumentationKind.BasicBlockIntCount,
                                 ILOffset := 7, Count := 1, Other := 0, Offset := 4 }],
          fgPgoData := fun _ => 42, compMethodHash := 0, fgStressBBProf := 0 } 7 =
      none ↔
      fgHaveProfileData
        { compIsForImportOnly := false,
          fgPgoSchema := some [{ InstrumentationKind := PgoInstrumentationKind.BasicBlockIntCount,
                                 ILOffset := 7, Count := 1, Other := 0, Offset := 4 }],
          fgPgoData := fun _ => 42, compMethodHash := 0, fgStressBBProf := 0 } = false) :=
  (C3_profile_lookup _ 7 rfl).1

/-- C9: with a non-zero stress seed, `fgGetProfileWeightForBasicBlock`
always succeeds with the deterministic hash-synthesized weight — zero when
`hash % 3 = 0`, the large product when `hash % 11 = 0`, the small product
otherwise, with offset 0 floored to `1 + hash % 5` — and the result is
unchanged by any replacement of the schema, counter data, or import-only
flag. -/
theorem C9_stress_weight (c : ProfileContext) (offset : Nat)
    (hseed : c.fgStressBBProf ≠ 0) :
    (fgGetProfileWeightForBasicBlock c offset =
      some (
        let hash := u32 (c.compMethodHash * c.fgStressBBProf) ^^^ u32 (offset * 1027)
        let w : Weight :=
          if hash % 3 = 0 then 0
          else if hash % 11 = 0 then ((hash % 23) * (hash % 29) * (hash % 31) : ℕ)
          else ((hash % 17) * (hash % 19) : ℕ)
        if offset = 0 ∧ w = 0 then ((1 + hash % 5 : ℕ) : Weight) else w)) ∧
    (∀ (sch : Option (List PgoSchemaEntry)) (data : Nat → Nat) (io : Bool),
      fgGetProfileWeightForBasicBlock
        { c with fgPgoSchema := sch, fgPgoData := data, compIsForImportOnly := io }
        offset =
      fgGetProfileWeightForBasicBlock c offset) := by
  constructor
  · unfold fgGetProfileWeightForBasicBlock stressSynthesizedWeight stressHash
    rw [if_pos hseed]
  · intro sch data io
    unfold fgGetProfileWeightForBasicBlock stressSynthesizedWeight stressHash
    rw [if_pos hseed, if_pos hseed]

/-- Witness for C9 at method hash 5, seed 3, offset 0. -/
theorem C9_stress_weight_witness :
    fgGetProfileWeightForBasicBlock
      { compIsForImportOnly := false, fgPgoSchema := none, fgPgoData := fun _ => 0,
        compMethodHash := 5, fgStressBBProf := 3 } 0 =
    some (
      let hash := u32 (5 * 3) ^^^ u32 (0 * 1027)
      let w : Weight :=
        if hash % 3 = 0 then 0
        else if hash % 11 = 0 then ((hash % 23) * (hash % 29) * (hash % 31) : ℕ)
        else ((hash % 17) * (hash % 19) : ℕ)
      if 0 = 0 ∧ w = 0 then ((1 + hash % 5 : ℕ) : Weight) else w) :=
  (C9_stress_weight _ 0 (by decide)).1

/-- C10: starting from `UNDETERMINED`, `fgComputeProfileScale` either
reaches `KNOWN` — in which case the scale is `callSiteWeight / calleeWeight`
with `0 < callSiteWeight ≤ calleeWeight` established first, so the scale
lies in `(0, 1]` — or leaves the state `UNAVAILABLE` with the scale factor
untouched. -/
theorem C10_profile_scale (cs : Bool) (w : Weight) (c : ProfileContext)
    (info : InlineScaleInfo)
    (hstate : info.profileScaleState = ProfileScaleState.UNDETERMINED)
    (hw : 0 ≤ w) :
    ((fgComputeProfileScale cs w c info).profileScaleState = ProfileScaleState.KNOWN ∨
     ((fgComputeProfileScale cs w c info).profileScaleState = ProfileScaleState.UNAVAILABLE ∧
      (fgComputeProfileScale cs w c info).profileScaleFactor = info.profileScaleFactor)) ∧
    ((fgComputeProfileScale cs w c info).profileScaleState = ProfileScaleState.KNOWN →
      ∃ calleeWeight, fgGetProfileWeightForBasicBlock c 0 = some calleeWeight ∧
        0 < w ∧ w ≤ calleeWeight ∧
        (fgComputeProfileScale cs w c info).profileScaleFactor = w / calleeWeight ∧
        0 < (fgComputeProfileScale cs w c info).profileScaleFactor ∧
        (fgComputeProfileScale cs w c info).profileScaleFactor ≤ 1) := by
  unfold fgComputeProfileScale
  rw [if_neg (by simp [hstate])]
  by_cases hcs : cs = false
  · simp [hcs]
  · rw [if_neg hcs]
    by_cases hw0 : w = 0
    · simp [hw0]
    · rw [if_neg hw0]
      by_cases hd : fgHaveProfileData c = false
      · simp [hd]
      · rw [if_neg hd]
        rcases hcw : fgGetProfileWeightForBasicBlock c 0 with _ | cw
        · simp
        · simp only []
          by_cases hlt : cw < w
          · simp [hlt]
          · rw [if_neg hlt]
            have hwpos : 0 < w := lt_of_le_of_ne hw (Ne.symm hw0)
            have hwle : w ≤ cw := le_of_not_lt hlt
            have hcwpos : 0 < cw := lt_of_lt_of_le hwpos hwle
            refine ⟨Or.inl rfl, fun _ => ⟨cw, rfl, hwpos, hwle, rfl, ?_, ?_⟩⟩
            · exact div_pos hwpos hcwpos
            · exact (div_le_one hcwpos).mpr hwle

/-- Witness for C10: call-site weight 2, callee entry counter 4 at offset 0. -/
theorem C10_profile_scale_witness :
    (fgComputeProfileScale true 2
        { compIsForImportOnly := false,
          fgPgoSchema := some [{ InstrumentationKind := PgoInstrumentationKind.BasicBlockIntCount,
                                 ILOffset := 0, Count := 1, Other := 0, Offset := 0 }],
          fgPgoData := fun _ => 4, compMethodHash := 0, fgStressBBProf := 0 }
        { profileScaleState := ProfileScaleState.UNDETERMINED,
          profileScaleFactor := 0 }).profileScaleState = ProfileScaleState.KNOWN ∨
    ((fgComputeProfileScale true 2
        { compIsForImportOnly := false,
          fgPgoSchema := some [{ InstrumentationKind := PgoInstrumentationKind.BasicBlockIntCount,
                                 ILOffset := 0, Count := 1, Other := 0, Offset := 0 }],
          fgPgoData := fun _ => 4, compMethodHash := 0, fgStressBBProf := 0 }
        { profileScaleState := ProfileScaleState.UNDETERMINED,
          profileScaleFactor := 0 }).profileScaleState = ProfileScaleState.UNAVAILABLE ∧
     (fgComputeProfileScale true 2
        { compIsForImportOnly := false,
          fgPgoSchema := some [{ InstrumentationKind := PgoInstrumentationKind.BasicBlockIntCount,
                                 ILOffset := 0, Count := 1, Other := 0, Offset := 0 }],
          fgPgoData := fun _ => 4, compMethodHash := 0, fgStressBBProf := 0 }
        { profileScaleState := ProfileScaleState.UNDETERMINED,
          profileScaleFactor := 0 }).profileScaleFactor = 0) :=
  (C10_profile_scale true 2 _ _ rfl (by norm_num)).1

/-! ### In-place list update lemmas -/

theorem updNth_length (f : α → α) (n : Nat) (xs : List α) :
    (updNth f n xs).length = xs.length := by
  induction xs generalizing n with
  | nil => cases n <;> rfl
  | cons a l ih => cases n with
    | zero => rfl
    | succ m => simp [updNth, ih]

theorem get?_updNth_self (f : α → α) (n : Nat) (xs : List α) :
    (updNth f n xs).get? n = (xs.get? n).map f := by
  induction xs generalizing n with
  | nil => cases n <;> rfl
  | cons a l ih => cases n with
    | zero => rfl
    | succ m => simpa [updNth] using ih m

theorem get?_updNth_ne (f : α → α) (n m : Nat) (xs : List α) (h : m ≠ n) :
    (updNth f n xs).get? m = xs.get? m := by
  induction xs generalizing n m with
  | nil => cases n <;> rfl
  | cons a l ih => cases n with
    | zero => cases m with
      | zero => exact absurd rfl h
      | succ k => rfl
    | succ n' => cases m with
      | zero => rfl
      | succ k => simpa [updNth] using ih n' k (fun hk => h (by simp [hk]))

theorem getD_eq_get?_getD (l : List α) (n : Nat) (d : α) :
    l.getD n d = (l.get? n).getD d := rfl

theorem mem_updNth (f : α → α) (n : Nat) (xs : List α) (x : α)
    (hx : x ∈ updNth f n xs) : x ∈ xs ∨ ∃ y ∈ xs, x = f y := by
  induction xs generalizing n with
  | nil => cases n <;> simp [updNth] at hx
  | cons a l ih =>
    cases n with
    | zero =>
      rcases List.mem_cons.mp hx with h | h
      · exact Or.inr ⟨a, List.mem_cons_self a l, h⟩
      · exact Or.inl (List.mem_cons_of_mem a h)
    | succ m =>
      rcases List.mem_cons.mp hx with h | h
      · exact Or.inl (h ▸ List.mem_cons_self a l)
      · rcases ih m h with h2 | ⟨y, hy, hxy⟩
        · exact Or.inl (List.mem_cons_of_mem a h2)
        · exact Or.inr ⟨y, List.mem_cons_of_mem a hy, hxy⟩

/-- C8: when profile weights are used, `fgComputeCalledCount` sets
`fgCalledCount` to the first non-internal block's weight when that block has
exactly one in-edge or the return-and-throw weight is zero, and to the
return-and-throw weight otherwise; when the first block is a scratch block,
its weight becomes `fgCalledCount`, it is marked profile-derived, and
`RUN_RARELY` is set exactly when that weight is zero; no other block
changes. -/
theorem C8_called_count (g : FlowGraph) (scratch : Bool) (returnWeight : Weight)
    (f : Nat) (fb : BasicBlock) (hf : findFirstNonInternal g.blocks = some (f, fb)) :
    (fgComputeCalledCount g scratch returnWeight).fatal = false ∧
    (fgComputeCalledCount g scratch returnWeight).fgCalledCount =
      (if (g.preds.getD f []).length = 1 ∨ returnWeight = 0 then fb.bbWeight
       else returnWeight) ∧
    (scratch = false → (fgComputeCalledCount g scratch returnWeight).blocks = g.blocks) ∧
    (scratch = true → ∀ b0, g.blocks.get? 0 = some b0 →
      (fgComputeCalledCount g scratch returnWeight).blocks.get? 0 =
        some { b0 with
               bbWeight := (fgComputeCalledCount g scratch returnWeight).fgCalledCount,
               hasProfileWeight := true,
               runRarely :=
                 decide ((fgComputeCalledCount g scratch returnWeight).fgCalledCount = 0) } ∧
      ∀ d, d ≠ 0 →
        (fgComputeCalledCount g scratch returnWeight).blocks.get? d = g.blocks.get? d) := by
  unfold fgComputeCalledCount
  rw [hf]
  refine ⟨rfl, rfl, fun hs => by simp [hs], fun hs b0 hb0 => ?_⟩
  constructor
  · simp only [hs, if_true, if_pos]
    rw [get?_updNth_self, hb0]
    simp [setBBProfileWeight]
  · intro d hd
    simp only [hs, if_true, if_pos]
    exact get?_updNth_ne _ 0 d g.blocks hd

/-- Witness for C8 on the S3-shaped graph with a scratch first block:
`returnWeight = 100`, first block weight 100, single in-edge. -/
theorem C8_called_count_witness :
    (fgComputeCalledCount cexC5Graph true 100).fatal = false ∧
    (fgComputeCalledCount cexC5Graph true 100).fgCalledCount =
      (if (cexC5Graph.preds.getD 0 []).length = 1 ∨ (100 : ℚ) = 0 then
         (mkBlock 100 BBjumpKind.BBJ_NONE none).bbWeight
       else 100) ∧
    (true = false → (fgComputeCalledCount cexC5Graph true 100).blocks = cexC5Graph.blocks) ∧
    (true = true → ∀ b0, cexC5Graph.blocks.get? 0 = some b0 →
      (fgComputeCalledCount cexC5Graph true 100).blocks.get? 0 =
        some { b0 with
               bbWeight := (fgComputeCalledCount cexC5Graph true 100).fgCalledCount,
               hasProfileWeight := true,
               runRarely := decide ((fgComputeCalledCount cexC5Graph true 100).fgCalledCount = 0) } ∧
      ∀ d, d ≠ 0 →
        (fgComputeCalledCount cexC5Graph true 100).blocks.get? d =
          cexC5Graph.blocks.get? d) :=
  C8_called_count cexC5Graph true 100 0 (mkBlock 100 BBjumpKind.BBJ_NONE none) (by decide)

/-! ### C4: Rule B and the successor's profile flag -/

/-- C4 counterexample: on `cexC4Graph`, the unprofiled block 1 has the
unprofiled successor 2 as its unique successor with a unique in-edge, and
the propagation step produces the candidate `2.bbWeight = 7` even though
block 2 has no profile weight — refuting the claim that Rule B requires the
successor to carry a profile-derived weight.  (The full run indeed adopts
it: afterwards block 1 has weight 7 and still no profile flag.) -/
theorem C4_counterexample : ¬ C4ClaimStatement := by
  intro h
  exact h cexC4Graph 1
    { mkBlock 100 BBjumpKind.BBJ_NONE none with hasProfileWeight := false } 2
    { mkBlock 7 BBjumpKind.BBJ_RETURN none with hasProfileWeight := false }
    (by decide) (by decide) (by decide) (by decide) (by decide) (by decide)
    (by decide) (by decide) (by decide)

/-- C4 amended: in the propagation step, whenever the unique successor `n`
of block `d` has exactly one in-edge (which is from `d`), the candidate is
`n.bbWeight` — whether or not `n` carries a profile weight — and the
`noway_assert` on the in-edge's source passes. -/
theorem C4_amended_ruleB (g : FlowGraph) (d : Nat) (bb : BasicBlock) (n : Nat)
    (nb : BasicBlock)
    (hsucc : uniqueSuccessor g.blocks.length bb d = some n)
    (hget : g.blocks.get? n = some nb)
    (hlen : (g.preds.getD n []).length = 1)
    (hhead : (g.preds.getD n []).headD 0 = d) :
    (missingWeightCandidate g.blocks g.preds d bb).1 = nb.bbWeight ∧
    (missingWeightCandidate g.blocks g.preds d bb).2 = false := by
  have hne : g.preds.getD n [] ≠ [] := by
    intro hempty; rw [hempty] at hlen; simp at hlen
  simp only [missingWeightCandidate, hsucc]
  rw [if_pos (And.intro hne hlen), if_pos hhead, hget]
  exact ⟨rfl, rfl⟩

/-- Witness for the amended C4 at `cexC4Graph`, block 1 with successor 2. -/
theorem C4_amended_ruleB_witness :
    (missingWeightCandidate cexC4Graph.blocks cexC4Graph.preds 1
      { mkBlock 100 BBjumpKind.BBJ_NONE none with hasProfileWeight := false }).1 =
      ({ mkBlock 7 BBjumpKind.BBJ_RETURN none with hasProfileWeight := false } :
        BasicBlock).bbWeight ∧
    (missingWeightCandidate cexC4Graph.blocks cexC4Graph.preds 1
      { mkBlock 100 BBjumpKind.BBJ_NONE none with hasProfileWeight := false }).2 = false :=
  C4_amended_ruleB cexC4Graph 1 _ 2 _ (by decide) (by decide) (by decide) (by decide)

/-! ### C5: which weight writes set `HAS_PROFILE_WEIGHT` -/

/-- The assignment half of the propagation step only ever rewrites the
block's weight and `RUN_RARELY` flag; the block list is otherwise
unchanged. -/
theorem propagateAssign_blocks (preds : List (List Nat)) (d : Nat) (s : PropState) :
    (propagateAssign preds d s).blocks = s.blocks ∨
    ∃ w : Weight, (propagateAssign preds d s).blocks =
      updNth (fun b => { b with bbWeight := w, runRarely := decide (w = 0) }) d s.blocks := by
  unfold propagateAssign
  split
  · exact Or.inl rfl
  · split
    · split
      split
      · exact Or.inl rfl
      · split
        · exact Or.inr ⟨_, rfl⟩
        · exact Or.inl rfl
    · exact Or.inl rfl

/-- The accumulation half never changes the block list. -/
theorem propagateReturnAcc_blocks (d : Nat) (s : PropState) :
    (propagateReturnAcc d s).blocks = s.blocks := by
  unfold propagateReturnAcc
  split
  · rfl
  · split <;> rfl

/-- The propagation step only ever rewrites a block's weight and
`RUN_RARELY` flag; the block list is otherwise unchanged. -/
theorem propagateBlock_blocks (preds : List (List Nat)) (d : Nat) (s : PropState) :
    (propagateBlock preds d s).blocks = s.blocks ∨
    ∃ w : Weight, (propagateBlock preds d s).blocks =
      updNth (fun b => { b with bbWeight := w, runRarely := decide (w = 0) }) d s.blocks := by
  simp only [propagateBlock]
  split
  · exact Or.inl rfl
  · split
    · exact propagateAssign_blocks preds d s
    · rw [propagateReturnAcc_blocks]
      exact propagateAssign_blocks preds d s

/-- The propagation step never changes any block's `HAS_PROFILE_WEIGHT`. -/
theorem propagateBlock_flag (preds : List (List Nat)) (d : Nat) (s : PropState) (m : Nat) :
    ((propagateBlock preds d s).blocks.get? m).map BasicBlock.hasProfileWeight =
      (s.blocks.get? m).map BasicBlock.hasProfileWeight := by
  rcases propagateBlock_blocks preds d s with h | ⟨w, h⟩
  · rw [h]
  · rw [h]
    by_cases hm : m = d
    · subst hm
      rw [get?_updNth_self]
      cases s.blocks.get? m <;> rfl
    · rw [get?_updNth_ne _ _ _ _ hm]

/-- A whole propagation pass never changes any `HAS_PROFILE_WEIGHT`. -/
theorem propagateFold_flag (preds : List (List Nat)) (ds : List Nat) (s : PropState)
    (m : Nat) :
    ((ds.foldl (fun s' d => propagateBlock preds d s') s).blocks.get? m).map
        BasicBlock.hasProfileWeight =
      (s.blocks.get? m).map BasicBlock.hasProfileWeight := by
  induction ds generalizing s with
  | nil => rfl
  | cons d ds ih => rw [List.foldl_cons, ih, propagateBlock_flag]

/-- A whole propagation pass never changes any `HAS_PROFILE_WEIGHT`. -/
theorem propagatePass_flag (preds : List (List Nat)) (blocks : List BasicBlock)
    (m : Nat) :
    ((propagatePass preds blocks).blocks.get? m).map BasicBlock.hasProfileWeight =
      (blocks.get? m).map BasicBlock.hasProfileWeight := by
  unfold propagatePass
  exact propagateFold_flag preds _ _ m

/-- The bounded propagation loop never changes any `HAS_PROFILE_WEIGHT`. -/
theorem propLoop_flag (preds : List (List Nat)) (fuel : Nat) (blocks : List BasicBlock)
    (m : Nat) :
    ((propLoop preds fuel blocks).blocks.get? m).map BasicBlock.hasProfileWeight =
      (blocks.get? m).map BasicBlock.hasProfileWeight := by
  induction fuel generalizing blocks with
  | zero => rfl
  | succ n ih =>
    simp only [propLoop]
    split_ifs
    · exact propagatePass_flag preds blocks m
    · rw [ih]
      exact propagatePass_flag preds blocks m
    · exact propagatePass_flag preds blocks m

set_option maxRecDepth 8192 in
/-- C5 counterexample: on `cexC5Graph` (spec scenario S3) the propagator
assigns weight 100 to block 1 — its weight changes from 50 — yet block 1
does not carry `HAS_PROFILE_WEIGHT` afterwards, refuting the claim that
every propagator-assigned weight sets the flag. -/
theorem C5_counterexample : ¬ C5ClaimStatement := by
  intro h
  have h1 := h cexC5Graph 1 (by decide)
  exact absurd h1 (by decide)

/-- C5 amended: `HAS_PROFILE_WEIGHT` is never set by the weight propagator —
every block keeps its incoming flag through `fgComputeMissingBlockWeights` —
and `fgComputeCalledCount` sets it exactly on the scratch entry block, whose
weight it assigns from the method call count. -/
theorem C5_amended_flag_sources (g : FlowGraph) (scratch : Bool) (rw' : Weight)
    (f : Nat) (fb : BasicBlock) (hf : findFirstNonInternal g.blocks = some (f, fb)) :
    (∀ m, ((fgComputeMissingBlockWeights g).blocks.get? m).map BasicBlock.hasProfileWeight =
      (g.blocks.get? m).map BasicBlock.hasProfileWeight) ∧
    (∀ m bb, g.blocks.get? m = some bb →
      ((fgComputeCalledCount g scratch rw').blocks.get? m).map BasicBlock.hasProfileWeight =
        some (bb.hasProfileWeight || (scratch && m == 0))) := by
  constructor
  · intro m
    exact propLoop_flag g.preds 10 g.blocks m
  · intro m bb hbb
    unfold fgComputeCalledCount
    simp only [hf]
    rcases scratch with _ | _
    · rw [if_neg Bool.false_ne_true, hbb]
      simp
    · rw [if_pos rfl]
      by_cases hm : m = 0
      · subst hm
        rw [get?_updNth_self, hbb]
        simp [setBBProfileWeight]
      · rw [get?_updNth_ne _ _ _ _ hm, hbb]
        simp [hm]

/-- Witness for the amended C5 on `cexC5Graph` with a scratch first block. -/
theorem C5_amended_flag_sources_witness :
    (∀ m, ((fgComputeMissingBlockWeights cexC5Graph).blocks.get? m).map
        BasicBlock.hasProfileWeight =
      (cexC5Graph.blocks.get? m).map BasicBlock.hasProfileWeight) ∧
    (∀ m bb, cexC5Graph.blocks.get? m = some bb →
      ((fgComputeCalledCount cexC5Graph true 100).blocks.get? m).map
          BasicBlock.hasProfileWeight =
        some (bb.hasProfileWeight || (true && m == 0))) :=
  C5_amended_flag_sources cexC5Graph true 100 0
    (mkBlock 100 BBjumpKind.BBJ_NONE none) (by decide)

/-! ### C7: the minimal-profiling opt-out -/

/-- The block count accumulated by the schema walk is the number of
imported, non-internal blocks. -/
theorem buildSchemaFold_snd (l : List BasicBlock) :
    ∀ acc : List PgoSchemaEntry × Nat,
      (l.foldl buildSchemaStep acc).2 = acc.2 + countImportedNonInternal l := by
  induction l with
  | nil => intro acc; simp [countImportedNonInternal]
  | cons b l ih =>
    intro acc
    rw [List.foldl_cons, ih]
    unfold buildSchemaStep
    rcases hi : b.imported with _ | _ <;> rcases hn : b.internal with _ | _ <;>
      simp [hi, hn, countImportedNonInternal, List.filter_cons] <;> omega

/-- `countOfBlocks` as computed by phase 1 equals the number of imported,
non-internal blocks. -/
theorem buildSchema_snd (blocks : List BasicBlock) :
    (buildSchema blocks).2 = countImportedNonInternal blocks := by
  unfold buildSchema
  rw [buildSchemaFold_snd]
  simp

/-- C7: with `JitMinimalProfiling` enabled, fewer than three imported
non-internal blocks, and no class-probe candidates, `fgInstrumentMethod`
returns before the Host allocation: no allocation request, no statement
inserted, no call modified, no temp grabbed, the block list untouched. -/
theorem C7_minimal_optout (cfg : InstrConfig) (host : Host) (blocks : List BasicBlock)
    (hmin : cfg.jitMinimalProfiling = true)
    (hblocks : countImportedNonInternal blocks < 3)
    (hcalls : cfg.compClassProbeCount = 0) :
    fgInstrumentMethod cfg host blocks =
      { blocks := blocks, schema := (buildSchema blocks).1, allocationRequested := false,
        instrument := false, returnedEarly := true, fatal := false, temps := 0,
        counterStmts := [], entryCounterAddr := 0, prejitHookInserted := false } := by
  rcases hbs : buildSchema blocks with ⟨schema0, cob⟩
  have hcob : cob = countImportedNonInternal blocks := by
    rw [← buildSchema_snd, hbs]
  simp only [fgInstrumentMethod, hbs]
  rw [if_pos ⟨hmin, by rw [hcob]; exact hblocks, by simp [hcalls]⟩]

/-- Witness for C7: a single imported `BBJ_RETURN` block with minimal
profiling on and zero class probes. -/
theorem C7_minimal_optout_witness :
    fgInstrumentMethod
      { jitMinimalProfiling := true, jitClassProfiling := false, isPrejit := false,
        isReadyToRun := false, compClassProbeCount := 0 }
      { status := AllocStatus.OK, profileMemory := 0, entryOffset := fun _ => 0 }
      [mkBlock 1 BBjumpKind.BBJ_RETURN none] =
    { blocks := [mkBlock 1 BBjumpKind.BBJ_RETURN none],
      schema := (buildSchema [mkBlock 1 BBjumpKind.BBJ_RETURN none]).1,
      allocationRequested := false, instrument := false, returnedEarly := true,
      fatal := false, temps := 0, counterStmts := [], entryCounterAddr := 0,
      prejitHookInserted := false } :=
  C7_minimal_optout _ _ _ rfl (by decide) rfl

/-! ### C6: class-probe restore when allocation is NOT_IMPLEMENTED -/

/-- With `instrument = false`, visiting a block's probe calls only restores
each call's stub address: no schema slot is consumed, no temp is grabbed. -/
theorem probeFold_noInstr (schema : List PgoSchemaEntry) (mem : Nat)
    (calls : List ProbeCall) : ∀ cur : Nat,
    probeFold schema mem false cur calls = (calls.map restoreStub, cur, 0, calls.length) := by
  induction calls with
  | nil => intro cur; rfl
  | cons c cs ih =>
    intro cur
    simp [probeFold, classProbeInsert, restoreStub, ih cur]

/-- With `instrument = false`, one step of the second walk appends the
restored block, advances the index, and changes no instrumentation output. -/
theorem instrWalkBlock_noInstr (cfg : InstrConfig) (schema : List PgoSchemaEntry)
    (mem : Nat) (st : InstrWalkState) (b : BasicBlock) :
    (instrWalkBlock cfg schema mem false st b).out = st.out ++ [noInstrTransform cfg b] ∧
    (instrWalkBlock cfg schema mem false st b).temps = st.temps ∧
    (instrWalkBlock cfg schema mem false st b).counterStmts = st.counterStmts ∧
    (instrWalkBlock cfg schema mem false st b).firstAddr = st.firstAddr := by
  unfold instrWalkBlock noInstrTransform
  by_cases hi : b.imported = true
  · rw [if_neg (show ¬ ¬ b.imported = true by simp [hi]),
       if_neg (show ¬ ¬ b.imported = true by simp [hi])]
    by_cases hc : cfg.jitClassProfiling = true ∧ b.hasClassProfile = true
    · rw [if_pos hc, if_pos hc, probeFold_noInstr]
      refine ⟨?_, ?_, ?_, ?_⟩ <;> simp [apply_ite]
    · rw [if_neg hc, if_neg hc]
      refine ⟨?_, ?_, ?_, ?_⟩ <;> simp [apply_ite]
  · rw [if_pos (show ¬ b.imported = true from hi), if_pos (show ¬ b.imported = true from hi)]
    exact ⟨rfl, rfl, rfl, rfl⟩

/-- With `instrument = false`, the whole second walk maps every block through
`noInstrTransform` and produces no instrumentation output. -/
theorem instrWalkFold_noInstr (cfg : InstrConfig) (schema : List PgoSchemaEntry)
    (mem : Nat) (l : List BasicBlock) : ∀ st : InstrWalkState,
    (l.foldl (instrWalkBlock cfg schema mem false) st).out =
      st.out ++ l.map (noInstrTransform cfg) ∧
    (l.foldl (instrWalkBlock cfg schema mem false) st).temps = st.temps ∧
    (l.foldl (instrWalkBlock cfg schema mem false) st).counterStmts = st.counterStmts ∧
    (l.foldl (instrWalkBlock cfg schema mem false) st).firstAddr = st.firstAddr := by
  induction l with
  | nil => intro st; simp
  | cons b bs ih =>
    intro st
    rw [List.foldl_cons]
    obtain ⟨h1, h2, h3, h4⟩ := ih (instrWalkBlock cfg schema mem false st b)
    obtain ⟨g1, g2, g3, g4⟩ := instrWalkBlock_noInstr cfg schema mem st b
    refine ⟨?_, by rw [h2, g2], by rw [h3, g3], by rw [h4, g4]⟩
    rw [h1, g1]
    simp

/-- C6: when the Host's counter allocation answers `NOT_IMPLEMENTED`,
`fgInstrumentMethod` clears `instrument`, is not fatal, still requested the
allocation, walks the whole CFG (every block goes through
`noInstrTransform`), restores `gtStubCallStubAddr` from the probe's saved
`stubAddr` on every probe call of every imported `HAS_CLASS_PROFILE` block,
rewrites no call's `this` argument, allocates no temp, and inserts no
counter statement; any allocation failure other than `NOT_IMPLEMENTED` is
fatal. -/
theorem C6_notimpl_restore (cfg : InstrConfig) (host : Host) (blocks : List BasicBlock)
    (hstatus : host.status = AllocStatus.NOT_IMPLEMENTED)
    (hcls : cfg.jitClassProfiling = true)
    (hguard : ¬ (cfg.jitMinimalProfiling = true ∧ countImportedNonInternal blocks < 3 ∧
                 cfg.compClassProbeCount = 0)) :
    ((fgInstrumentMethod cfg host blocks).instrument = false ∧
     (fgInstrumentMethod cfg host blocks).fatal = false ∧
     (fgInstrumentMethod cfg host blocks).allocationRequested = true ∧
     (fgInstrumentMethod cfg host blocks).temps = 0 ∧
     (fgInstrumentMethod cfg host blocks).counterStmts = [] ∧
     (fgInstrumentMethod cfg host blocks).prejitHookInserted = false) ∧
    (∀ i b, blocks.get? i = some b →
      (fgInstrumentMethod cfg host blocks).blocks.get? i =
        some (noInstrTransform cfg b)) ∧
    (∀ b : BasicBlock, b.hasClassProfile = true → b.imported = true →
      (noInstrTransform cfg b).probeCalls = b.probeCalls.map restoreStub) ∧
    (∀ c : ProbeCall, (restoreStub c).gtStubCallStubAddr = c.probeStubAddr ∧
      (restoreStub c).thisRewritten = c.thisRewritten ∧
      (restoreStub c).classProfileAddr = c.classProfileAddr) ∧
    (∀ host' : Host, host'.status = AllocStatus.OTHER_FAILURE →
      (fgInstrumentMethod cfg host' blocks).fatal = true) := by
  rcases hbs : buildSchema blocks with ⟨schema0, cob⟩
  have hcob : cob = countImportedNonInternal blocks := by
    rw [← buildSchema_snd, hbs]
  have hng : ¬ (cfg.jitMinimalProfiling = true ∧ cob < 3 ∧
      ((cfg.compClassProbeCount : Int) = 0)) := by
    rintro ⟨a, b2, c⟩
    exact hguard ⟨a, hcob ▸ b2, by exact_mod_cast c⟩
  have hmain : fgInstrumentMethod cfg host blocks =
      { blocks := blocks.map (noInstrTransform cfg), schema := schema0,
        allocationRequested := true, instrument := false, returnedEarly := false,
        fatal := false, temps := 0, counterStmts := [], entryCounterAddr := 0,
        prejitHookInserted := false } := by
    obtain ⟨w1, w2, w3, w4⟩ := instrWalkFold_noInstr cfg schema0 host.profileMemory blocks
      { out := [], idx := 0, cursor := 0, blocksLeft := (cob : Int),
        callsLeft := (cfg.compClassProbeCount : Int), temps := 0,
        counterStmts := [], firstAddr := 0 }
    simp only [fgInstrumentMethod, hbs, hstatus]
    rw [if_neg hng]
    simp [w1, w2, w3, w4]
  refine ⟨⟨?_, ?_, ?_, ?_, ?_, ?_⟩, ?_, ?_, ?_, ?_⟩
  · rw [hmain]
  · rw [hmain]
  · rw [hmain]
  · rw [hmain]
  · rw [hmain]
  · rw [hmain]
  · intro i b hib
    rw [hmain]
    show (blocks.map (noInstrTransform cfg)).get? i = _
    rw [List.get?_map, hib]
    rfl
  · intro b hbc hbi
    unfold noInstrTransform
    rw [if_neg (by simp [hbi]), if_pos ⟨hcls, hbc⟩]
  · intro c
    exact ⟨rfl, rfl, rfl⟩
  · intro host' hs'
    simp only [fgInstrumentMethod, hbs, hs']
    rw [if_neg hng]

/-- Witness for C6: one imported class-profile block with a single probe
call, class profiling on, minimal profiling off, Host answering
`NOT_IMPLEMENTED`. -/
theorem C6_notimpl_restore_witness :
    ((fgInstrumentMethod cexC6Config cexC6Host cexC6Blocks).instrument = false ∧
     (fgInstrumentMethod cexC6Config cexC6Host cexC6Blocks).fatal = false ∧
     (fgInstrumentMethod cexC6Config cexC6Host cexC6Blocks).allocationRequested = true ∧
     (fgInstrumentMethod cexC6Config cexC6Host cexC6Blocks).temps = 0 ∧
     (fgInstrumentMethod cexC6Config cexC6Host cexC6Blocks).counterStmts = [] ∧
     (fgInstrumentMethod cexC6Config cexC6Host cexC6Blocks).prejitHookInserted = false) ∧
    (∀ i b, cexC6Blocks.get? i = some b →
      (fgInstrumentMethod cexC6Config cexC6Host cexC6Blocks).blocks.get? i =
        some (noInstrTransform cexC6Config b)) ∧
    (∀ b : BasicBlock, b.hasClassProfile = true → b.imported = true →
      (noInstrTransform cexC6Config b).probeCalls = b.probeCalls.map restoreStub) ∧
    (∀ c : ProbeCall, (restoreStub c).gtStubCallStubAddr = c.probeStubAddr ∧
      (restoreStub c).thisRewritten = c.thisRewritten ∧
      (restoreStub c).classProfileAddr = c.classProfileAddr) ∧
    (∀ host' : Host, host'.status = AllocStatus.OTHER_FAILURE →
      (fgInstrumentMethod cexC6Config host' cexC6Blocks).fatal = true) :=
  C6_notimpl_restore cexC6Config cexC6Host cexC6Blocks rfl rfl
    (by intro h; exact absurd h.1 (by decide))

/-! ### C1: groundwork on the solver state -/

theorem getEdge_mem (preds : List (List PredEdge)) (d i : Nat) (e : PredEdge)
    (h : getEdge preds d i = some e) : ∃ l, l ∈ preds ∧ e ∈ l := by
  have h' : (preds.getD d []).get? i = some e := h
  rw [getD_eq_get?_getD] at h'
  rcases hg : preds.get? d with _ | l
  · rw [hg] at h'
    simp at h'
  · rw [hg] at h'
    simp only [Option.getD_some] at h'
    exact ⟨l, List.get?_mem hg, List.get?_mem h'⟩

theorem edgeWF_of_preds {preds : List (List PredEdge)} (hwf : PredsWF preds)
    {d i : Nat} {e : PredEdge} (h : getEdge preds d i = some e) :
    EdgeRangeWF e.range := by
  obtain ⟨l, hl, he⟩ := getEdge_mem preds d i e h
  exact hwf l hl e he

theorem setRangeAt_WF (preds : List (List PredEdge)) (d i : Nat) (r : EdgeRange)
    (hwf : PredsWF preds) (hr : EdgeRangeWF r) : PredsWF (setRangeAt preds d i r) := by
  intro l hl e he
  rcases mem_updNth _ _ _ _ hl with hl' | ⟨l0, hl0, rfl⟩
  · exact hwf l hl' e he
  · rcases mem_updNth _ _ _ _ he with he' | ⟨e0, _, rfl⟩
    · exact hwf l0 hl0 e he'
    · exact hr

theorem setRangeAt_getD_length (preds : List (List PredEdge)) (d i : Nat)
    (r : EdgeRange) (m : Nat) :
    ((setRangeAt preds d i r).getD m []).length = (preds.getD m []).length := by
  unfold setRangeAt
  by_cases hm : m = d
  · subst hm
    rw [getD_eq_get?_getD, getD_eq_get?_getD, get?_updNth_self]
    cases preds.get? m with
    | none => rfl
    | some l => simp [updNth_length]
  · rw [getD_eq_get?_getD, getD_eq_get?_getD, get?_updNth_ne _ _ _ _ hm]

theorem setMinAt_clear (s : SolverState) (d i : Nat) (w slop : Weight)
    (h : FlagsClear (setMinAt s d i w slop).1) : FlagsClear s := by
  unfold setMinAt at h
  rcases hg : getEdge s.preds d i with _ | e
  · rw [hg] at h
    have hfat : true = false := h.2.1
    exact absurd hfat (by decide)
  · rw [hg] at h
    refine ⟨h.1, h.2.1, ?_⟩
    have h3 : (s.usedSlop || (setEdgeWeightMinChecked e.range w slop).usedSlop) = false :=
      h.2.2
    simp only [Bool.or_eq_false_iff] at h3
    exact h3.1

theorem setMinAt_noSlopOut (s : SolverState) (d i : Nat) (w slop : Weight)
    (h : FlagsClear (setMinAt s d i w slop).1) (e : PredEdge)
    (hg : getEdge s.preds d i = some e) :
    (setEdgeWeightMinChecked e.range w slop).usedSlop = false := by
  unfold setMinAt at h
  rw [hg] at h
  have h3 : (s.usedSlop || (setEdgeWeightMinChecked e.range w slop).usedSlop) = false :=
    h.2.2
  simp only [Bool.or_eq_false_iff] at h3
  exact h3.2

theorem setMinAt_WFp (s : SolverState) (d i : Nat) (w slop : Weight)
    (h : FlagsClear (setMinAt s d i w slop).1) (hwf : PredsWF s.preds) :
    PredsWF (setMinAt s d i w slop).1.preds := by
  unfold setMinAt
  rcases hg : getEdge s.preds d i with _ | e
  · exact hwf
  · exact setRangeAt_WF _ _ _ _ hwf
      (setMin_noSlop_WF e.range w slop (setMinAt_noSlopOut s d i w slop h e hg)
        (edgeWF_of_preds hwf hg))

theorem setMinAt_len (s : SolverState) (d i : Nat) (w slop : Weight) (m : Nat) :
    (((setMinAt s d i w slop).1.preds.getD m []).length) =
      ((s.preds.getD m []).length) := by
  unfold setMinAt
  rcases hg : getEdge s.preds d i with _ | e
  · rfl
  · exact setRangeAt_getD_length s.preds d i _ m

theorem setMaxAt_clear (s : SolverState) (d i : Nat) (w slop : Weight)
    (h : FlagsClear (setMaxAt s d i w slop).1) : FlagsClear s := by
  unfold setMaxAt at h
  rcases hg : getEdge s.preds d i with _ | e
  · rw [hg] at h
    have hfat : true = false := h.2.1
    exact absurd hfat (by decide)
  · rw [hg] at h
    refine ⟨h.1, h.2.1, ?_⟩
    have h3 : (s.usedSlop || (setEdgeWeightMaxChecked e.range w slop).usedSlop) = false :=
      h.2.2
    simp only [Bool.or_eq_false_iff] at h3
    exact h3.1

theorem setMaxAt_noSlopOut (s : SolverState) (d i : Nat) (w slop : Weight)
    (h : FlagsClear (setMaxAt s d i w slop).1) (e : PredEdge)
    (hg : getEdge s.preds d i = some e) :
    (setEdgeWeightMaxChecked e.range w slop).usedSlop = false := by
  unfold setMaxAt at h
  rw [hg] at h
  have h3 : (s.usedSlop || (setEdgeWeightMaxChecked e.range w slop).usedSlop) = false :=
    h.2.2
  simp only [Bool.or_eq_false_iff] at h3
  exact h3.2

theorem setMaxAt_WFp (s : SolverState) (d i : Nat) (w slop : Weight)
    (h : FlagsClear (setMaxAt s d i w slop).1) (hwf : PredsWF s.preds) :
    PredsWF (setMaxAt s d i w slop).1.preds := by
  unfold setMaxAt
  rcases hg : getEdge s.preds d i with _ | e
  · exact hwf
  · exact setRangeAt_WF _ _ _ _ hwf
      (setMax_noSlop_WF e.range w slop (setMaxAt_noSlopOut s d i w slop h e hg)
        (edgeWF_of_preds hwf hg))

theorem setMaxAt_len (s : SolverState) (d i : Nat) (w slop : Weight) (m : Nat) :
    (((setMaxAt s d i w slop).1.preds.getD m []).length) =
      ((s.preds.getD m []).length) := by
  unfold setMaxAt
  rcases hg : getEdge s.preds d i with _ | e
  · rfl
  · exact setRangeAt_getD_length s.preds d i _ m

/-! ### C1: the per-destination balance step in isolation -/

/-- A successful, slop-free minimum-raising step keeps the maximum, can only
raise the minimum, preserves well-formedness, and certifies that the
destination weight does not exceed `otherMax + max`. -/
theorem perDestEdgeMin_spec (destW otherMax slop : Weight) (r : EdgeRange)
    (hwf : EdgeRangeWF r)
    (hok : (perDestEdgeMin destW otherMax slop r).ok = true)
    (hs : (perDestEdgeMin destW otherMax slop r).usedSlop = false) :
    (perDestEdgeMin destW otherMax slop r).range.flEdgeWeightMax = r.flEdgeWeightMax ∧
    r.flEdgeWeightMin ≤ (perDestEdgeMin destW otherMax slop r).range.flEdgeWeightMin ∧
    EdgeRangeWF (perDestEdgeMin destW otherMax slop r).range ∧
    (otherMax + r.flEdgeWeightMax < destW → False) := by
  obtain ⟨h0, hmm⟩ := hwf
  unfold perDestEdgeMin at hok hs ⊢
  split_ifs at hok hs ⊢ with hc
  · obtain ⟨⟨hin1, hin2⟩, hrange⟩ :=
      setMin_ok_noSlop r (destW - otherMax) slop hok hs
    rw [hrange]
    refine ⟨rfl, le_of_lt hc.2, And.intro ?_ ?_, fun hlt => ?_⟩
    · show (0 : ℚ) ≤ destW - otherMax
      linarith
    · show destW - otherMax ≤ r.flEdgeWeightMax
      exact hin2
    · linarith
  · refine ⟨rfl, le_refl _, And.intro h0 hmm, fun hlt => ?_⟩
    exact hc ⟨by linarith, by linarith⟩

/-- A successful, slop-free maximum-lowering step keeps the minimum,
preserves well-formedness, and either keeps the maximum or sets it to
`destW - otherMin` with the minimum still below it. -/
theorem perDestEdgeMax_spec (destW otherMin slop : Weight) (r : EdgeRange)
    (hwf : EdgeRangeWF r)
    (hok : (perDestEdgeMax destW otherMin slop r).ok = true)
    (hs : (perDestEdgeMax destW otherMin slop r).usedSlop = false) :
    (perDestEdgeMax destW otherMin slop r).range.flEdgeWeightMin = r.flEdgeWeightMin ∧
    EdgeRangeWF (perDestEdgeMax destW otherMin slop r).range ∧
    ((perDestEdgeMax destW otherMin slop r).range.flEdgeWeightMax = r.flEdgeWeightMax ∨
     ((perDestEdgeMax destW otherMin slop r).range.flEdgeWeightMax = destW - otherMin ∧
      r.flEdgeWeightMin ≤ destW - otherMin)) := by
  obtain ⟨h0, hmm⟩ := hwf
  unfold perDestEdgeMax at hok hs ⊢
  split_ifs at hok hs ⊢ with hc
  · obtain ⟨⟨hin1, hin2⟩, hrange⟩ :=
      setMax_ok_noSlop r (destW - otherMin) slop hok hs
    rw [hrange]
    exact ⟨rfl, And.intro h0 hin1, Or.inr ⟨rfl, hin1⟩⟩
  · exact ⟨rfl, And.intro h0 hmm, Or.inl rfl⟩

/-- Facts about one successful, slop-free per-destination edge step: the
range stays well formed, the minimum does not drop, the maximum either
stays or becomes exactly `destW - Smin + min₀` (forcing `Smin ≤ destW`),
and the step cannot succeed without slop when `Smax < destW`. -/
theorem perDestEdge_facts (destW Smin Smax slop : Weight) (e : PredEdge)
    (hwf : EdgeRangeWF e.range)
    (hok : (perDestEdge destW Smin Smax slop e).ok = true)
    (hfat : (perDestEdge destW Smin Smax slop e).fatal = false)
    (hs : (perDestEdge destW Smin Smax slop e).usedSlop = false) :
    EdgeRangeWF (perDestEdge destW Smin Smax slop e).edge.range ∧
    e.range.flEdgeWeightMin ≤
      (perDestEdge destW Smin Smax slop e).edge.range.flEdgeWeightMin ∧
    ((perDestEdge destW Smin Smax slop e).edge.range.flEdgeWeightMax =
        e.range.flEdgeWeightMax ∨
     ((perDestEdge destW Smin Smax slop e).edge.range.flEdgeWeightMax =
        destW - Smin + e.range.flEdgeWeightMin ∧ Smin ≤ destW)) ∧
    (Smax < destW → False) := by
  unfold perDestEdge at hok hfat hs ⊢
  split_ifs at hok hfat hs ⊢ with hassert
  · have hok' : ((perDestEdgeMin destW (Smax - e.range.flEdgeWeightMax) slop e.range).ok &&
        (perDestEdgeMax destW (Smin - e.range.flEdgeWeightMin) slop
          (perDestEdgeMin destW (Smax - e.range.flEdgeWeightMax) slop e.range).range).ok) =
        true := hok
    have hs' : ((perDestEdgeMin destW (Smax - e.range.flEdgeWeightMax) slop e.range).usedSlop ||
        (perDestEdgeMax destW (Smin - e.range.flEdgeWeightMin) slop
          (perDestEdgeMin destW (Smax - e.range.flEdgeWeightMax) slop e.range).range).usedSlop) =
        false := hs
    simp only [Bool.and_eq_true] at hok'
    simp only [Bool.or_eq_false_iff] at hs'
    obtain ⟨hg1, hg2, hg3, hg4⟩ :=
      perDestEdgeMin_spec destW (Smax - e.range.flEdgeWeightMax) slop e.range hwf
        hok'.1 hs'.1
    obtain ⟨hh1, hh2, hh3⟩ :=
      perDestEdgeMax_spec destW (Smin - e.range.flEdgeWeightMin) slop
        (perDestEdgeMin destW (Smax - e.range.flEdgeWeightMax) slop e.range).range
        hg3 hok'.2 hs'.2
    refine ⟨hh2, ?_, ?_, fun hlt => hg4 (by linarith)⟩
    · show e.range.flEdgeWeightMin ≤
        (perDestEdgeMax destW (Smin - e.range.flEdgeWeightMin) slop
          (perDestEdgeMin destW (Smax - e.range.flEdgeWeightMax) slop
            e.range).range).range.flEdgeWeightMin
      rw [hh1]
      exact hg2
    · show (perDestEdgeMax destW (Smin - e.range.flEdgeWeightMin) slop
          (perDestEdgeMin destW (Smax - e.range.flEdgeWeightMax) slop
            e.range).range).range.flEdgeWeightMax = e.range.flEdgeWeightMax ∨ _
      rcases hh3 with h | ⟨hmaxeq, hminle⟩
      · exact Or.inl (h.trans hg1)
      · refine Or.inr ⟨by rw [hmaxeq]; ring, ?_⟩
        have := hg2.trans hminle
        linarith

/-- The per-destination balance over a list preserves its length. -/
theorem perDestEdgeList_len (destW Smin Smax : Weight) (slopOf : PredEdge → Weight) :
    ∀ l : List PredEdge,
      (perDestEdgeList destW Smin Smax slopOf l).edges.length = l.length := by
  intro l
  induction l with
  | nil => rfl
  | cons e rest ih =>
    simp only [perDestEdgeList]
    split_ifs <;> simp [ih]

/-- Facts about a successful, slop-free per-destination balance over a
predecessor list: all ranges stay well formed, the new maxima dominate the
old minima, the maxima sum either is unchanged or is at least
`destW - Smin + Σ min`, and a non-empty list certifies `destW ≤ Smax`. -/
theorem perDestEdgeList_facts (destW Smin Smax : Weight) (slopOf : PredEdge → Weight) :
    ∀ l : List PredEdge,
    (∀ e ∈ l, EdgeRangeWF e.range) →
    (perDestEdgeList destW Smin Smax slopOf l).ok = true →
    (perDestEdgeList destW Smin Smax slopOf l).fatal = false →
    (perDestEdgeList destW Smin Smax slopOf l).usedSlop = false →
    (∀ e' ∈ (perDestEdgeList destW Smin Smax slopOf l).edges, EdgeRangeWF e'.range) ∧
    sumMin l ≤ sumMax (perDestEdgeList destW Smin Smax slopOf l).edges ∧
    (sumMax (perDestEdgeList destW Smin Smax slopOf l).edges = sumMax l ∨
      (destW - Smin + sumMin l ≤ sumMax (perDestEdgeList destW Smin Smax slopOf l).edges ∧
       Smin ≤ destW)) ∧
    (l ≠ [] → Smax < destW → False) := by
  intro l
  induction l with
  | nil =>
    intro _ _ _ _
    refine ⟨by simp [perDestEdgeList], ?_, Or.inl rfl, fun h => absurd rfl h⟩
    simp [perDestEdgeList, sumMin, sumMax]
  | cons e rest ih =>
    intro hwf hok hfat hs
    simp only [perDestEdgeList] at hok hfat hs ⊢
    split_ifs at hok hfat hs ⊢ with hf1 hok1 hg
    all_goals
      have hewf : EdgeRangeWF e.range := hwf e (List.mem_cons_self e rest)
      have hokR : (perDestEdgeList destW Smin Smax slopOf rest).ok = true := hok
      have hfatR : (perDestEdgeList destW Smin Smax slopOf rest).fatal = false := hfat
      have hsB : ((perDestEdge destW Smin Smax (slopOf e) e).usedSlop ||
          (perDestEdgeList destW Smin Smax slopOf rest).usedSlop) = false := hs
      simp only [Bool.or_eq_false_iff] at hsB
      have hfatE : (perDestEdge destW Smin Smax (slopOf e) e).fatal = false := by
        simpa using hf1
      obtain ⟨ha, hb, hc, hd⟩ :=
        perDestEdge_facts destW Smin Smax (slopOf e) e hewf hok1 hfatE hsB.1
      obtain ⟨ia, ib, ic, _⟩ :=
        ih (fun x hx => hwf x (List.mem_cons_of_mem e hx)) hokR hfatR hsB.2
      have hsumMin : sumMin (e :: rest) = e.range.flEdgeWeightMin + sumMin rest := by
        simp [sumMin]
      have hsumMaxCons : ∀ (x : PredEdge) (xs : List PredEdge),
          sumMax (x :: xs) = x.range.flEdgeWeightMax + sumMax xs := by
        intro x xs; simp [sumMax]
      have goalA : ∀ e' ∈ (perDestEdge destW Smin Smax (slopOf e) e).edge ::
          (perDestEdgeList destW Smin Smax slopOf rest).edges, EdgeRangeWF e'.range := by
        intro e' he'
        rcases List.mem_cons.mp he' with h | h
        · exact h ▸ ha
        · exact ia e' h
      have goalB : sumMin (e :: rest) ≤
          sumMax ((perDestEdge destW Smin Smax (slopOf e) e).edge ::
            (perDestEdgeList destW Smin Smax slopOf rest).edges) := by
        rw [hsumMin, hsumMaxCons]
        have h1 : e.range.flEdgeWeightMin ≤
            (perDestEdge destW Smin Smax (slopOf e) e).edge.range.flEdgeWeightMax :=
          le_trans hb ha.2
        linarith
      have goalC : sumMax ((perDestEdge destW Smin Smax (slopOf e) e).edge ::
            (perDestEdgeList destW Smin Smax slopOf rest).edges) = sumMax (e :: rest) ∨
          (destW - Smin + sumMin (e :: rest) ≤
            sumMax ((perDestEdge destW Smin Smax (slopOf e) e).edge ::
              (perDestEdgeList destW Smin Smax slopOf rest).edges) ∧ Smin ≤ destW) := by
        rcases hc with h | ⟨hmaxeq, hSle⟩
        · rcases ic with h2 | ⟨h2, hSle⟩
          · left
            rw [hsumMaxCons, hsumMaxCons, h, h2]
          · right
            refine ⟨?_, hSle⟩
            rw [hsumMin, hsumMaxCons, h]
            have hminmax : e.range.flEdgeWeightMin ≤ e.range.flEdgeWeightMax := hewf.2
            linarith
        · right
          refine ⟨?_, hSle⟩
          rw [hsumMin, hsumMaxCons, hmaxeq]
          linarith
      exact ⟨goalA, goalB, goalC, fun _ => hd⟩

/-! ### C1: the per-destination block step -/

/-- Unfolding equation for the main branch of `perDestBlock`. -/
theorem perDestBlock_eq (blocks : List BasicBlock) (called : Weight)
    (sf : Nat → Nat → Weight) (d : Nat) (s : SolverState) (bDst : BasicBlock)
    (hg : (s.inconsistent || s.fatal) = false)
    (hb : blocks.get? d = some bDst)
    (hmax : ¬ bDst.bbWeight = bbMaxWeight) :
    perDestBlock blocks called sf d s =
      (let o := perDestEdgeList (bDst.bbWeight - (if d = 0 then called else 0))
          (sumMin (s.preds.getD d [])) (sumMax (s.preds.getD d []))
          (fun e => sf e.src d + 1) (s.preds.getD d []);
       ({ s with preds := updNth (fun _ => o.edges) d s.preds,
                 usedSlop := s.usedSlop || o.usedSlop,
                 inconsistent := s.inconsistent || ! o.ok,
                 fatal := s.fatal || o.fatal }, o.good, o.incomplete)) := by
  unfold perDestBlock
  rw [if_neg (by simp [hg])]
  simp only [hb]
  rw [if_neg hmax]

/-- Guard-branch equation for `perDestBlock`. -/
theorem perDestBlock_eq_guard (blocks : List BasicBlock) (called : Weight)
    (sf : Nat → Nat → Weight) (d : Nat) (s : SolverState)
    (hg : (s.inconsistent || s.fatal) = true) :
    perDestBlock blocks called sf d s = (s, 0, false) := by
  unfold perDestBlock
  rw [if_pos hg]

/-- Out-of-range equation for `perDestBlock`. -/
theorem perDestBlock_eq_none (blocks : List BasicBlock) (called : Weight)
    (sf : Nat → Nat → Weight) (d : Nat) (s : SolverState)
    (hg : (s.inconsistent || s.fatal) = false)
    (hb : blocks.get? d = none) :
    perDestBlock blocks called sf d s = (s, 0, false) := by
  unfold perDestBlock
  rw [if_neg (by simp [hg])]
  simp only [hb]

/-- `BB_MAX_WEIGHT`-branch equation for `perDestBlock`. -/
theorem perDestBlock_eq_max (blocks : List BasicBlock) (called : Weight)
    (sf : Nat → Nat → Weight) (d : Nat) (s : SolverState) (bDst : BasicBlock)
    (hg : (s.inconsistent || s.fatal) = false)
    (hb : blocks.get? d = some bDst)
    (hmax : bDst.bbWeight = bbMaxWeight) :
    perDestBlock blocks called sf d s = ({ s with inconsistent := true }, 0, false) := by
  unfold perDestBlock
  rw [if_neg (by simp [hg])]
  simp only [hb]
  rw [if_pos hmax]

/-- Reading the flags off the record `perDestBlock` builds in its main branch. -/
theorem flagsClear_record (s : SolverState) (p : List (List PredEdge)) (u i f : Bool)
    (h : FlagsClear { preds := p, usedSlop := s.usedSlop || u,
                      inconsistent := s.inconsistent || i, fatal := s.fatal || f }) :
    FlagsClear s ∧ u = false ∧ i = false ∧ f = false := by
  have h1 : (s.inconsistent || i) = false := h.1
  have h2 : (s.fatal || f) = false := h.2.1
  have h3 : (s.usedSlop || u) = false := h.2.2
  simp only [Bool.or_eq_false_iff] at h1 h2 h3
  exact ⟨⟨h1.1, h2.1, h3.1⟩, h3.2, h1.2, h2.2⟩

/-- A non-empty `getD` pins down the underlying `get?`. -/
theorem get?_of_getD_ne (preds : List (List PredEdge)) (d : Nat)
    (hne : preds.getD d [] ≠ []) : preds.get? d = some (preds.getD d []) := by
  rw [getD_eq_get?_getD] at hne ⊢
  rcases hq : preds.get? d with _ | l
  · rw [hq] at hne
    exact absurd rfl hne
  · rfl

/-- The core of the per-destination bound: a successful, slop-free balance
over a non-empty list certifies that the destination weight is at most the
sum of the resulting edge maxima. -/
theorem perDestListMain (destW : Weight) (l : List PredEdge) (sf' : PredEdge → Weight)
    (hwfl : ∀ e ∈ l, EdgeRangeWF e.range)
    (hok : (perDestEdgeList destW (sumMin l) (sumMax l) sf' l).ok = true)
    (hfat : (perDestEdgeList destW (sumMin l) (sumMax l) sf' l).fatal = false)
    (hs : (perDestEdgeList destW (sumMin l) (sumMax l) sf' l).usedSlop = false)
    (hne : l ≠ []) :
    destW ≤ sumMax (perDestEdgeList destW (sumMin l) (sumMax l) sf' l).edges := by
  obtain ⟨hA, hB, hC, hD⟩ := perDestEdgeList_facts destW (sumMin l) (sumMax l) sf' l
    hwfl hok hfat hs
  have hdw : destW ≤ sumMax l := not_lt.mp (fun hlt => hD hne hlt)
  rcases hC with hEq | ⟨hGe, _⟩
  · rw [hEq]
    exact hdw
  · linarith

/-- The per-destination block step only ever raises the error and slop
flags: if they are clear afterwards they were clear before. -/
theorem perDestBlock_clear (blocks : List BasicBlock) (called : Weight)
    (sf : Nat → Nat → Weight) (d : Nat) (s : SolverState)
    (h : FlagsClear (perDestBlock blocks called sf d s).1) : FlagsClear s := by
  by_cases hg : (s.inconsistent || s.fatal) = true
  · rw [perDestBlock_eq_guard blocks called sf d s hg] at h
    exact h
  · have hg' : (s.inconsistent || s.fatal) = false := by
      simpa using hg
    rcases hb : blocks.get? d with _ | bDst
    · rw [perDestBlock_eq_none blocks called sf d s hg' hb] at h
      exact h
    · by_cases hmax : bDst.bbWeight = bbMaxWeight
      · rw [perDestBlock_eq_max blocks called sf d s bDst hg' hb hmax] at h
        have hx : true = false := h.1
        exact absurd hx (by decide)
      · rw [perDestBlock_eq blocks called sf d s bDst hg' hb hmax] at h
        exact (flagsClear_record s _ _ _ _ h).1

/-- The per-destination block step preserves the lengths of all predecessor
lists. -/
theorem perDestBlock_len (blocks : List BasicBlock) (called : Weight)
    (sf : Nat → Nat → Weight) (d : Nat) (s : SolverState) (m : Nat) :
    (((perDestBlock blocks called sf d s).1.preds.getD m []).length) =
      ((s.preds.getD m []).length) := by
  by_cases hg : (s.inconsistent || s.fatal) = true
  · rw [perDestBlock_eq_guard blocks called sf d s hg]
  · have hg' : (s.inconsistent || s.fatal) = false := by
      simpa using hg
    rcases hb : blocks.get? d with _ | bDst
    · rw [perDestBlock_eq_none blocks called sf d s hg' hb]
    · by_cases hmax : bDst.bbWeight = bbMaxWeight
      · rw [perDestBlock_eq_max blocks called sf d s bDst hg' hb hmax]
      · rw [perDestBlock_eq blocks called sf d s bDst hg' hb hmax]
        simp only []
        by_cases hm : m = d
        · subst hm
          rw [getD_eq_get?_getD, getD_eq_get?_getD, get?_updNth_self]
          rcases hq : s.preds.get? m with _ | l
          · rfl
          · have hl : s.preds.getD m [] = l := by
              rw [getD_eq_get?_getD, hq]
              rfl
            simp only [Option.map_some', Option.getD_some, hl]
            exact perDestEdgeList_len _ _ _ _ l
        · rw [getD_eq_get?_getD, getD_eq_get?_getD, get?_updNth_ne _ _ _ _ hm]
          rfl

/-- The per-destination block step for block `d` leaves every other block's
predecessor list untouched. -/
theorem perDestBlock_other (blocks : List BasicBlock) (called : Weight)
    (sf : Nat → Nat → Weight) (d : Nat) (s : SolverState) (m : Nat) (hm : m ≠ d) :
    (perDestBlock blocks called sf d s).1.preds.getD m [] = s.preds.getD m [] := by
  by_cases hg : (s.inconsistent || s.fatal) = true
  · rw [perDestBlock_eq_guard blocks called sf d s hg]
  · have hg' : (s.inconsistent || s.fatal) = false := by
      simpa using hg
    rcases hb : blocks.get? d with _ | bDst
    · rw [perDestBlock_eq_none blocks called sf d s hg' hb]
    · by_cases hmax : bDst.bbWeight = bbMaxWeight
      · rw [perDestBlock_eq_max blocks called sf d s bDst hg' hb hmax]
      · rw [perDestBlock_eq blocks called sf d s bDst hg' hb hmax]
        simp only []
        rw [getD_eq_get?_getD, getD_eq_get?_getD, get?_updNth_ne _ _ _ _ hm]
        rfl

/-- When the flags are clear afterwards, the per-destination block step
preserves well-formedness of the whole predecessor table. -/
theorem perDestBlock_WFp (blocks : List BasicBlock) (called : Weight)
    (sf : Nat → Nat → Weight) (d : Nat) (s : SolverState)
    (h : FlagsClear (perDestBlock blocks called sf d s).1)
    (hwf : PredsWF s.preds) :
    PredsWF (perDestBlock blocks called sf d s).1.preds := by
  by_cases hg : (s.inconsistent || s.fatal) = true
  · rw [perDestBlock_eq_guard blocks called sf d s hg]
    exact hwf
  · have hg' : (s.inconsistent || s.fatal) = false := by
      simpa using hg
    rcases hb : blocks.get? d with _ | bDst
    · rw [perDestBlock_eq_none blocks called sf d s hg' hb]
      exact hwf
    · by_cases hmax : bDst.bbWeight = bbMaxWeight
      · rw [perDestBlock_eq_max blocks called sf d s bDst hg' hb hmax] at h
        have hx : true = false := h.1
        exact absurd hx (by decide)
      · rw [perDestBlock_eq blocks called sf d s bDst hg' hb hmax] at h ⊢
        obtain ⟨_, hu, hi, hf⟩ := flagsClear_record s _ _ _ _ h
        have hok : (perDestEdgeList (bDst.bbWeight - (if d = 0 then called else 0))
            (sumMin (s.preds.getD d [])) (sumMax (s.preds.getD d []))
            (fun e => sf e.src d + 1) (s.preds.getD d [])).ok = true := by
          simpa using hi
        have hwfl : ∀ e ∈ s.preds.getD d [], EdgeRangeWF e.range := by
          intro e he
          rcases hq : s.preds.get? d with _ | l
          · rw [getD_eq_get?_getD, hq] at he
            simp at he
          · have hl : s.preds.getD d [] = l := by
              rw [getD_eq_get?_getD, hq]
              rfl
            rw [hl] at he
            exact hwf l (List.get?_mem hq) e he
        obtain ⟨hA, _, _, _⟩ := perDestEdgeList_facts
          (bDst.bbWeight - (if d = 0 then called else 0))
          (sumMin (s.preds.getD d [])) (sumMax (s.preds.getD d []))
          (fun e => sf e.src d + 1) (s.preds.getD d []) hwfl hok hf hu
        intro l hl e he
        rcases mem_updNth _ _ _ _ hl with hl' | ⟨l0, _, rfl⟩
        · exact hwf l hl' e he
        · exact hA e he

/-- The per-destination bound itself: if the step finished with all flags
clear, the (entry-adjusted) destination weight is bounded by the sum of the
resulting in-edge maxima. -/
theorem perDestBlock_bound (blocks : List BasicBlock) (called : Weight)
    (sf : Nat → Nat → Weight) (d : Nat) (s : SolverState) (bDst : BasicBlock)
    (h : FlagsClear (perDestBlock blocks called sf d s).1)
    (hwf : PredsWF s.preds)
    (hb : blocks.get? d = some bDst)
    (hne : s.preds.getD d [] ≠ []) :
    bDst.bbWeight - (if d = 0 then called else 0) ≤
      sumMax ((perDestBlock blocks called sf d s).1.preds.getD d []) := by
  by_cases hg : (s.inconsistent || s.fatal) = true
  · rw [perDestBlock_eq_guard blocks called sf d s hg] at h
    have h1 : s.inconsistent = false := h.1
    have h2 : s.fatal = false := h.2.1
    rw [h1, h2] at hg
    exact absurd hg (by decide)
  · have hg' : (s.inconsistent || s.fatal) = false := by
      simpa using hg
    by_cases hmax : bDst.bbWeight = bbMaxWeight
    · rw [perDestBlock_eq_max blocks called sf d s bDst hg' hb hmax] at h
      have hx : true = false := h.1
      exact absurd hx (by decide)
    · rw [perDestBlock_eq blocks called sf d s bDst hg' hb hmax] at h ⊢
      obtain ⟨_, hu, hi, hf⟩ := flagsClear_record s _ _ _ _ h
      have hok : (perDestEdgeList (bDst.bbWeight - (if d = 0 then called else 0))
          (sumMin (s.preds.getD d [])) (sumMax (s.preds.getD d []))
          (fun e => sf e.src d + 1) (s.preds.getD d [])).ok = true := by
        simpa using hi
      have hl : s.preds.get? d = some (s.preds.getD d []) := get?_of_getD_ne s.preds d hne
      have hwfl : ∀ e ∈ s.preds.getD d [], EdgeRangeWF e.range := fun e he =>
        hwf _ (List.get?_mem hl) e he
      have hmain := perDestListMain (bDst.bbWeight - (if d = 0 then called else 0))
        (s.preds.getD d []) (fun e => sf e.src d + 1) hwfl hok hf hu hne
      simp only []
      rw [getD_eq_get?_getD, get?_updNth_self, hl]
      exact hmain

/-! ### C1: reachability of every state the solver builds -/

theorem reach_step {a b : SolverState} (h : SolverStep a b) : SolverReach a b :=
  Relation.ReflTransGen.single h

theorem reach_head {a b c : SolverState} (h1 : SolverStep a b) (h2 : SolverReach b c) :
    SolverReach a c :=
  Relation.ReflTransGen.head h1 h2

theorem reach_trans {a b c : SolverState} (h1 : SolverReach a b) (h2 : SolverReach b c) :
    SolverReach a c :=
  Relation.ReflTransGen.trans h1 h2

theorem reach_snocMin {s Y : SolverState} {d i : Nat} {w slop : Weight}
    (h : SolverReach s Y) : SolverReach s (setMinAt Y d i w slop).1 :=
  reach_trans h (reach_step (SolverStep.minAt d i w slop Y))

theorem reach_snocMax {s Y : SolverState} {d i : Nat} {w slop : Weight}
    (h : SolverReach s Y) : SolverReach s (setMaxAt Y d i w slop).1 :=
  reach_trans h (reach_step (SolverStep.maxAt d i w slop Y))

theorem reach_capEdge (d i : Nat) (W slop : Weight) (s1 : SolverState) :
    SolverReach s1 (capEdge d i W slop s1).1 := by
  unfold capEdge
  split
  · split
    · exact reach_snocMax Relation.ReflTransGen.refl
    · exact Relation.ReflTransGen.refl
  · exact reach_step (SolverStep.fail s1)

theorem reach_finish (s s0 : SolverState) (p1 p2 : SolverState × Bool)
    (h0 : SolverReach s s0) (h1 : SolverReach s0 p1.1) (h2 : SolverReach p1.1 p2.1) :
    SolverReach s (if p1.2 && p2.2 then p2.1 else { p2.1 with inconsistent := true }) := by
  split
  · exact reach_trans h0 (reach_trans h1 h2)
  · exact reach_trans h0
      (reach_trans (reach_trans h1 h2) (reach_step (SolverStep.mark _)))

set_option maxHeartbeats 1000000 in
theorem reach_initEdge (blocks : List BasicBlock) (called : Weight)
    (sf : Nat → Nat → Weight) (d i : Nat) (s : SolverState) :
    SolverReach s (initEdge blocks called sf d i s) := by
  unfold initEdge
  repeat' split
  all_goals first
    | exact Relation.ReflTransGen.refl
    | exact reach_step (SolverStep.fail _)
    | exact reach_finish _ _ _ _ Relation.ReflTransGen.refl
        (reach_snocMax (reach_snocMin Relation.ReflTransGen.refl))
        (reach_capEdge _ _ _ _ _)
    | exact reach_finish _ _ _ _ (reach_step (SolverStep.reset _ _ _))
        (reach_snocMax (reach_snocMin Relation.ReflTransGen.refl))
        (reach_capEdge _ _ _ _ _)
    | exact reach_finish _ _ _ _ Relation.ReflTransGen.refl
        (reach_capEdge _ _ _ _ _) (reach_capEdge _ _ _ _ _)
    | exact reach_finish _ _ _ _ (reach_step (SolverStep.reset _ _ _))
        (reach_capEdge _ _ _ _ _) (reach_capEdge _ _ _ _ _)
    | exact reach_finish _ _ _ _ Relation.ReflTransGen.refl
        (reach_step (SolverStep.fail _)) (reach_capEdge _ _ _ _ _)
    | exact reach_finish _ _ _ _ (reach_step (SolverStep.reset _ _ _))
        (reach_step (SolverStep.fail _)) (reach_capEdge _ _ _ _ _)

theorem reach_reconFirst (c1 c2 : Prop) [Decidable c1] [Decidable c2]
    (s : SolverState) (d i t j : Nat) (w1 w2 slop : Weight) :
    SolverReach s (if c1 then setMinAt s d i w1 slop
      else if c2 then setMaxAt s t j w2 slop else (s, true)).1 := by
  split
  · exact reach_snocMin Relation.ReflTransGen.refl
  · split
    · exact reach_snocMax Relation.ReflTransGen.refl
    · exact Relation.ReflTransGen.refl

theorem reach_reconSecond (bSrcW slop : Weight) (d i t j : Nat)
    (pA : SolverState × Bool) :
    SolverReach pA.1 (reconSecond bSrcW slop d i t j pA) := by
  unfold reconSecond
  repeat' split
  all_goals first
    | exact reach_step (SolverStep.fail _)
    | exact reach_finish _ _ _ _ Relation.ReflTransGen.refl Relation.ReflTransGen.refl
        (reach_reconFirst _ _ _ _ _ _ _ _ _ _)

theorem reach_reconAfter (bSrcW slop : Weight) (d i t j : Nat) (s : SolverState)
    (pA : SolverState × Bool) (h : SolverReach s pA.1) :
    SolverReach s (reconSecond bSrcW slop d i t j pA) :=
  reach_trans h (reach_reconSecond bSrcW slop d i t j pA)

set_option maxHeartbeats 1000000 in
theorem reach_reconCore (numBlocks : Nat) (sf : Nat → Nat → Weight) (d i : Nat)
    (e : PredEdge) (bSrc : BasicBlock) (s : SolverState) :
    SolverReach s (reconCore numBlocks sf d i e bSrc s) := by
  unfold reconCore
  simp only []
  repeat' split
  all_goals first
    | exact reach_step (SolverStep.fail _)
    | exact reach_reconAfter _ _ _ _ _ _ _ _ (reach_snocMin Relation.ReflTransGen.refl)
    | exact reach_reconAfter _ _ _ _ _ _ _ _ (reach_snocMax Relation.ReflTransGen.refl)
    | exact reach_reconAfter _ _ _ _ _ _ _ _ Relation.ReflTransGen.refl

theorem reach_reconEdge (blocks : List BasicBlock) (sf : Nat → Nat → Weight)
    (d i : Nat) (s : SolverState) :
    SolverReach s (reconEdge blocks sf d i s) := by
  unfold reconEdge
  repeat' split
  all_goals first
    | exact Relation.ReflTransGen.refl
    | exact reach_step (SolverStep.fail _)
    | exact reach_reconCore _ _ _ _ _ _ _

theorem reach_foldl {α : Type} (g : SolverState → α → SolverState) (l : List α)
    (hg : ∀ (x : α) (st : SolverState), SolverReach st (g st x)) :
    ∀ s : SolverState, SolverReach s (l.foldl g s) := by
  induction l with
  | nil => exact fun s => Relation.ReflTransGen.refl
  | cons a l ih => exact fun s => reach_trans (hg a s) (ih (g s a))

theorem reach_initBlock (blocks : List BasicBlock) (called : Weight)
    (sf : Nat → Nat → Weight) (d : Nat) (s : SolverState) :
    SolverReach s (initBlock blocks called sf d s) :=
  reach_foldl _ _ (fun i st => reach_initEdge blocks called sf d i st) s

theorem reach_initPass (blocks : List BasicBlock) (called : Weight)
    (sf : Nat → Nat → Weight) (s : SolverState) :
    SolverReach s (initPass blocks called sf s) :=
  reach_foldl _ _ (fun d st => reach_initBlock blocks called sf d st) s

theorem reach_reconBlock (blocks : List BasicBlock) (sf : Nat → Nat → Weight)
    (d : Nat) (s : SolverState) :
    SolverReach s (reconBlock blocks sf d s) :=
  reach_foldl _ _ (fun i st => reach_reconEdge blocks sf d i st) s

theorem reach_reconPass (blocks : List BasicBlock) (sf : Nat → Nat → Weight)
    (s : SolverState) :
    SolverReach s (reconPass blocks sf s) :=
  reach_foldl _ _ (fun d st => reach_reconBlock blocks sf d st) s

theorem reach_perDestPass (blocks : List BasicBlock) (called : Weight)
    (sf : Nat → Nat → Weight) :
    ∀ (ds : List Nat) (s : SolverState),
      SolverReach s (perDestPass blocks called sf ds s).1 := by
  intro ds
  induction ds with
  | nil => exact fun s => Relation.ReflTransGen.refl
  | cons d ds ih =>
    intro s
    exact reach_trans
      (reach_step (SolverStep.perDest blocks called sf d s))
      (ih (perDestBlock blocks called sf d s).1)

/-! ### C1: properties carried along every reachable path -/

/-- The `[0, BB_MAX_WEIGHT]` reset range is well formed. -/
theorem initRange_WF : EdgeRangeWF (setEdgeWeights bbZeroWeight bbMaxWeight) := by
  unfold EdgeRangeWF setEdgeWeights bbZeroWeight bbMaxWeight
  norm_num

/-- One solver step, exiting with clear flags: flags were clear before, the
table stays well formed, and all predecessor-list lengths are preserved. -/
theorem solverStep_facts {b c : SolverState} (h : SolverStep b c)
    (hc : FlagsClear c) :
    FlagsClear b ∧ (PredsWF b.preds → PredsWF c.preds) ∧
      ∀ m, (c.preds.getD m []).length = (b.preds.getD m []).length := by
  cases h with
  | minAt d i w slop =>
    exact ⟨setMinAt_clear b d i w slop hc,
      fun hw => setMinAt_WFp b d i w slop hc hw,
      fun m => setMinAt_len b d i w slop m⟩
  | maxAt d i w slop =>
    exact ⟨setMaxAt_clear b d i w slop hc,
      fun hw => setMaxAt_WFp b d i w slop hc hw,
      fun m => setMaxAt_len b d i w slop m⟩
  | reset d i =>
    exact ⟨hc, fun hw => setRangeAt_WF _ _ _ _ hw initRange_WF,
      fun m => setRangeAt_getD_length b.preds d i _ m⟩
  | fail =>
    have hx : true = false := hc.2.1
    exact absurd hx (by decide)
  | mark =>
    have hx : true = false := hc.1
    exact absurd hx (by decide)
  | perDest blocks called sf d =>
    exact ⟨perDestBlock_clear blocks called sf d b hc,
      fun hw => perDestBlock_WFp blocks called sf d b hc hw,
      fun m => perDestBlock_len blocks called sf d b m⟩

/-- Along any reachable path that ends with clear flags: the flags were
clear at the start, well-formedness is carried forward, and predecessor-list
lengths are preserved. -/
theorem SolverReach_props {s t : SolverState} (h : SolverReach s t) :
    FlagsClear t →
    FlagsClear s ∧ (PredsWF s.preds → PredsWF t.preds) ∧
      ∀ m, (t.preds.getD m []).length = (s.preds.getD m []).length := by
  unfold SolverReach at h
  induction h with
  | refl => exact fun hc => ⟨hc, id, fun m => rfl⟩
  | tail hab hbc ih =>
    intro hc
    obtain ⟨hb, hwfbc, hlenbc⟩ := solverStep_facts hbc hc
    obtain ⟨ha, hwfab, hlenab⟩ := ih hb
    exact ⟨ha, fun hw => hwfbc (hwfab hw), fun m => (hlenbc m).trans (hlenab m)⟩

/-! ### C1: the per-destination pass -/

theorem perDestPass_clear (blocks : List BasicBlock) (called : Weight)
    (sf : Nat → Nat → Weight) :
    ∀ (ds : List Nat) (s : SolverState),
      FlagsClear (perDestPass blocks called sf ds s).1 → FlagsClear s := by
  intro ds
  induction ds with
  | nil => exact fun s h => h
  | cons d ds ih =>
    intro s h
    have h' : FlagsClear
        (perDestPass blocks called sf ds (perDestBlock blocks called sf d s).1).1 := h
    exact perDestBlock_clear blocks called sf d s (ih _ h')

theorem perDestPass_len (blocks : List BasicBlock) (called : Weight)
    (sf : Nat → Nat → Weight) :
    ∀ (ds : List Nat) (s : SolverState) (m : Nat),
      ((perDestPass blocks called sf ds s).1.preds.getD m []).length =
        (s.preds.getD m []).length := by
  intro ds
  induction ds with
  | nil => exact fun s m => rfl
  | cons d ds ih =>
    intro s m
    have h1 : ((perDestPass blocks called sf (d :: ds) s).1.preds.getD m []).length =
        ((perDestPass blocks called sf ds
          (perDestBlock blocks called sf d s).1).1.preds.getD m []).length := rfl
    rw [h1, ih _ m, perDestBlock_len blocks called sf d s m]

theorem perDestPass_other (blocks : List BasicBlock) (called : Weight)
    (sf : Nat → Nat → Weight) :
    ∀ (ds : List Nat) (s : SolverState) (m : Nat), m ∉ ds →
      (perDestPass blocks called sf ds s).1.preds.getD m [] = s.preds.getD m [] := by
  intro ds
  induction ds with
  | nil => exact fun s m _ => rfl
  | cons d ds ih =>
    intro s m hm
    have hmd : m ≠ d := fun h => hm (h ▸ List.mem_cons_self d ds)
    have hmds : m ∉ ds := fun h => hm (List.mem_cons_of_mem d h)
    have h1 : (perDestPass blocks called sf (d :: ds) s).1.preds.getD m [] =
        (perDestPass blocks called sf ds
          (perDestBlock blocks called sf d s).1).1.preds.getD m [] := rfl
    rw [h1, ih _ m hmds, perDestBlock_other blocks called sf d s m hmd]

/-- The per-destination pass bound: after a pass over distinct block indices
that finishes with clear flags, every visited destination with in-edges has
its (entry-adjusted) weight bounded by the sum of its in-edge maxima. -/
theorem perDestPass_bound (blocks : List BasicBlock) (called : Weight)
    (sf : Nat → Nat → Weight) :
    ∀ (ds : List Nat), ds.Nodup → ∀ (s : SolverState),
      FlagsClear (perDestPass blocks called sf ds s).1 → PredsWF s.preds →
      ∀ d ∈ ds, ∀ bDst, blocks.get? d = some bDst →
        (perDestPass blocks called sf ds s).1.preds.getD d [] ≠ [] →
        bDst.bbWeight - (if d = 0 then called else 0) ≤
          sumMax ((perDestPass blocks called sf ds s).1.preds.getD d []) := by
  intro ds
  induction ds with
  | nil =>
    intro _ s _ _ d hd
    exact absurd hd (List.not_mem_nil d)
  | cons d0 ds ih =>
    intro hnd s hfc hwf d hd bDst hb hne
    have hfcB : FlagsClear
        (perDestPass blocks called sf ds (perDestBlock blocks called sf d0 s).1).1 := hfc
    have hstep : FlagsClear (perDestBlock blocks called sf d0 s).1 :=
      perDestPass_clear blocks called sf ds _ hfcB
    rcases List.mem_cons.mp hd with rfl | hd'
    · have hdnotin : d ∉ ds := (List.nodup_cons.mp hnd).1
      have hne2 : s.preds.getD d [] ≠ [] := by
        intro h0
        apply hne
        have hlen0 : ((perDestPass blocks called sf (d :: ds) s).1.preds.getD d []).length
            = 0 := by
          rw [perDestPass_len blocks called sf (d :: ds) s d, h0]
          rfl
        exact List.length_eq_zero.mp hlen0
      have hbound := perDestBlock_bound blocks called sf d s bDst hstep hwf hb hne2
      have hfinal : (perDestPass blocks called sf (d :: ds) s).1.preds.getD d [] =
          (perDestBlock blocks called sf d s).1.preds.getD d [] :=
        perDestPass_other blocks called sf ds _ d hdnotin
      rw [hfinal]
      exact hbound
    · have hwfB : PredsWF (perDestBlock blocks called sf d0 s).1.preds :=
        perDestBlock_WFp blocks called sf d0 s hstep hwf
      have hneB : (perDestPass blocks called sf ds
          (perDestBlock blocks called sf d0 s).1).1.preds.getD d [] ≠ [] := hne
      exact ih (List.nodup_cons.mp hnd).2 _ hfcB hwfB d hd' bDst hb hneB

/-! ### C1: the refinement loop always ends on a completed pass -/

/-- Unfolding equation for one iteration of the refinement loop. -/
theorem solverLoop_succ (blocks : List BasicBlock) (called : Weight)
    (sf : Nat → Nat → Weight) (numEdges f goodPrev : Nat) (s : SolverState) :
    solverLoop blocks called sf numEdges (f + 1) goodPrev s =
      (let P := perDestPass blocks called sf (List.range blocks.length)
          (reconPass blocks sf s);
       if P.1.inconsistent || P.1.fatal then P.1
       else if P.2.1 = numEdges then
         (if P.2.2 then { P.1 with fatal := true } else P.1)
       else if P.2.2 ∧ P.2.1 > goodPrev then
         solverLoop blocks called sf numEdges f P.2.1 P.1
       else P.1) := rfl

/-- Whenever the refinement loop is entered with fuel, it either exits with
an error flag set or returns the state produced by a completed
per-destination pass over all blocks, run on a reachable state. -/
theorem solverLoop_shape (blocks : List BasicBlock) (called : Weight)
    (sf : Nat → Nat → Weight) (numEdges : Nat) :
    ∀ (fuel goodPrev : Nat) (s : SolverState), 1 ≤ fuel →
      (solverLoop blocks called sf numEdges fuel goodPrev s).fatal = true ∨
      (solverLoop blocks called sf numEdges fuel goodPrev s).inconsistent = true ∨
      ∃ sPre, SolverReach s sPre ∧
        solverLoop blocks called sf numEdges fuel goodPrev s =
          (perDestPass blocks called sf (List.range blocks.length)
            (reconPass blocks sf sPre)).1 := by
  intro fuel
  induction fuel with
  | zero =>
    intro _ s h
    exact absurd h (by decide)
  | succ f ihf =>
    intro goodPrev s _
    rw [solverLoop_succ]
    simp only []
    split
    · rename_i hcond
      rcases Bool.or_eq_true_iff.mp hcond with h | h
      · exact Or.inr (Or.inl h)
      · exact Or.inl h
    · split
      · split
        · exact Or.inl rfl
        · exact Or.inr (Or.inr ⟨s, Relation.ReflTransGen.refl, rfl⟩)
      · split
        · rcases Nat.eq_zero_or_pos f with rfl | hf
          · exact Or.inr (Or.inr ⟨s, Relation.ReflTransGen.refl, rfl⟩)
          · have hreachP : SolverReach s
                (perDestPass blocks called sf (List.range blocks.length)
                  (reconPass blocks sf s)).1 :=
              reach_trans (reach_reconPass blocks sf s)
                (reach_perDestPass blocks called sf (List.range blocks.length) _)
            rcases ihf _ _ hf with h | h | ⟨sPre, hreach, heq⟩
            · exact Or.inl h
            · exact Or.inr (Or.inl h)
            · exact Or.inr (Or.inr ⟨sPre, reach_trans hreachP hreach, heq⟩)
        · exact Or.inr (Or.inr ⟨s, Relation.ReflTransGen.refl, rfl⟩)

/-! ### C1: the claim, its refutation, and the provable bound -/

set_option maxHeartbeats 1000000 in
/-- C1 (amended): if `fgComputeEdgeWeights` (run while optimizing with
profile weights) terminates without fatal error, without marking the profile
inconsistent, and with no checked setter consuming slop, then every block
other than the method entry that has at least one in-edge has its weight
bounded above by the sum of `edgeWeightMax` over its in-edges.  (The lower
in-edge bound and both out-edge bounds of the original claim are refuted by
`C1_counterexample`.) -/
theorem C1_amended (blocks : List BasicBlock) (initPreds : List (List PredEdge))
    (called : Weight) (sf : Nat → Nat → Weight)
    (hwf0 : PredsWF initPreds)
    (hfat : (fgComputeEdgeWeights blocks initPreds called sf true true).fatal = false)
    (hinc : (fgComputeEdgeWeights blocks initPreds called sf true true).inconsistent =
      false)
    (hslop : (fgComputeEdgeWeights blocks initPreds called sf
      true true).fgSlopUsedInEdgeWeights = false)
    (d : Nat) (bb : BasicBlock) (hd0 : d ≠ 0)
    (hb : blocks.get? d = some bb)
    (hne : (fgComputeEdgeWeights blocks initPreds called sf true true).preds.getD d [] ≠
      []) :
    bb.bbWeight ≤
      sumMax ((fgComputeEdgeWeights blocks initPreds called sf
        true true).preds.getD d []) := by
  have hEarly : ¬ (¬ ((true : Bool) = true) ∨ ¬ ((true : Bool) = true)) := by decide
  by_cases hflag : ((initPass blocks called sf ⟨initPreds, false, false, false⟩).inconsistent
      || (initPass blocks called sf ⟨initPreds, false, false, false⟩).fatal) = true
  · have heq : fgComputeEdgeWeights blocks initPreds called sf true true =
        mkSolverResult blocks.length
          (initPass blocks called sf ⟨initPreds, false, false, false⟩) := by
      unfold fgComputeEdgeWeights
      rw [if_neg hEarly]
      simp only []
      rw [if_pos hflag]
    rw [heq] at hfat hinc
    have h1 : (initPass blocks called sf ⟨initPreds, false, false, false⟩).inconsistent =
        false := hinc
    have h2 : (initPass blocks called sf ⟨initPreds, false, false, false⟩).fatal =
        false := hfat
    rw [h1, h2] at hflag
    exact absurd hflag (by decide)
  · have heq : fgComputeEdgeWeights blocks initPreds called sf true true =
        mkSolverResult blocks.length
          (solverLoop blocks called sf
            (numEdgesOf (initPass blocks called sf ⟨initPreds, false, false, false⟩).preds
              blocks.length)
            8 0 (initPass blocks called sf ⟨initPreds, false, false, false⟩)) := by
      unfold fgComputeEdgeWeights
      rw [if_neg hEarly]
      simp only []
      rw [if_neg hflag]
    rw [heq] at hfat hinc hslop hne ⊢
    set s1 := initPass blocks called sf ⟨initPreds, false, false, false⟩ with hs1
    set F := solverLoop blocks called sf (numEdgesOf s1.preds blocks.length) 8 0 s1
      with hFdef
    have hpreds : (mkSolverResult blocks.length F).preds = F.preds := rfl
    rw [hpreds] at hne ⊢
    have hFf : F.fatal = false := hfat
    have hFi : F.inconsistent = false := hinc
    have hFu : F.usedSlop = false := hslop
    have hFC : FlagsClear F := ⟨hFi, hFf, hFu⟩
    rcases solverLoop_shape blocks called sf (numEdgesOf s1.preds blocks.length) 8 0 s1
        (by decide) with h | h | ⟨sPre, hreach, heqF⟩
    · rw [← hFdef, hFf] at h
      exact absurd h (by decide)
    · rw [← hFdef, hFi] at h
      exact absurd h (by decide)
    · rw [← hFdef] at heqF
      rw [heqF] at hFC hne ⊢
      have hfcT : FlagsClear (reconPass blocks sf sPre) :=
        perDestPass_clear blocks called sf _ _ hFC
      have hreachT : SolverReach ⟨initPreds, false, false, false⟩
          (reconPass blocks sf sPre) :=
        reach_trans (reach_initPass blocks called sf _)
          (reach_trans hreach (reach_reconPass blocks sf sPre))
      obtain ⟨_, hWFfwd, _⟩ := SolverReach_props hreachT hfcT
      have hwfT : PredsWF (reconPass blocks sf sPre).preds := hWFfwd hwf0
      have hdlt : d < blocks.length := by
        rcases List.get?_eq_some.mp hb with ⟨h, _⟩
        exact h
      have hmem : d ∈ List.range blocks.length := List.mem_range.mpr hdlt
      have hbound := perDestPass_bound blocks called sf (List.range blocks.length)
        (List.nodup_range _) (reconPass blocks sf sPre) hFC hwfT d hmem bb hb hne
      rw [if_neg hd0, sub_zero] at hbound
      exact hbound

set_option maxRecDepth 1000000 in
/-- C1 as stated is false: on `cexC1Blocks` the solver succeeds with no slop,
yet block 12's in-edge minima sum to 18 > 10, block 3's out-edge minima sum
to 18 > 10, and block 0's out-edge maxima sum to 20 < 100, refuting the
in-edge lower bound and both out-edge bounds. -/
theorem C1_counterexample :
    ¬ C1ClaimStatement cexC1Blocks cexC1Preds 100 (fun _ _ => 0) ∧
    ((fgComputeEdgeWeights cexC1Blocks cexC1Preds 100 (fun _ _ => 0)
        true true).fatal = false ∧
     (fgComputeEdgeWeights cexC1Blocks cexC1Preds 100 (fun _ _ => 0)
        true true).inconsistent = false ∧
     (fgComputeEdgeWeights cexC1Blocks cexC1Preds 100 (fun _ _ => 0)
        true true).fgSlopUsedInEdgeWeights = false) ∧
    ¬ sumMin ((fgComputeEdgeWeights cexC1Blocks cexC1Preds 100 (fun _ _ => 0)
        true true).preds.getD 12 []) ≤ (10 : ℚ) ∧
    ¬ sumMin (outEdges (fgComputeEdgeWeights cexC1Blocks cexC1Preds 100 (fun _ _ => 0)
        true true).preds 13 3) ≤ (10 : ℚ) ∧
    ¬ (100 : ℚ) ≤ sumMax (outEdges (fgComputeEdgeWeights cexC1Blocks cexC1Preds 100
        (fun _ _ => 0) true true).preds 13 0) := by
  constructor
  · intro hcl
    have h12 := (hcl (by with_unfolding_all decide) (by with_unfolding_all decide)
        (by with_unfolding_all decide)).1 12
      (mkBlock 10 BBjumpKind.BBJ_RETURN none) (by decide) rfl
      (by with_unfolding_all decide)
    exact absurd h12.1 (by with_unfolding_all decide)
  · exact ⟨⟨by with_unfolding_all decide, by with_unfolding_all decide,
      by with_unfolding_all decide⟩, by with_unfolding_all decide,
      by with_unfolding_all decide, by with_unfolding_all decide⟩

set_option maxRecDepth 1000000 in
/-- Witness for the amended C1 at the diamond graph: the solver succeeds
without slop and block 3's weight 100 is bounded by its in-edge maxima sum. -/
theorem C1_amended_witness :
    PredsWF diamondPreds ∧
    (fgComputeEdgeWeights diamondBlocks diamondPreds 100 (fun _ _ => 0)
      true true).fatal = false ∧
    (fgComputeEdgeWeights diamondBlocks diamondPreds 100 (fun _ _ => 0)
      true true).inconsistent = false ∧
    (fgComputeEdgeWeights diamondBlocks diamondPreds 100 (fun _ _ => 0)
      true true).fgSlopUsedInEdgeWeights = false ∧
    (3 : Nat) ≠ 0 ∧
    diamondBlocks.get? 3 = some (mkBlock 100 BBjumpKind.BBJ_RETURN none) ∧
    (fgComputeEdgeWeights diamondBlocks diamondPreds 100 (fun _ _ => 0)
      true true).preds.getD 3 [] ≠ [] ∧
    (mkBlock 100 BBjumpKind.BBJ_RETURN none).bbWeight ≤
      sumMax ((fgComputeEdgeWeights diamondBlocks diamondPreds 100 (fun _ _ => 0)
        true true).preds.getD 3 []) :=
  ⟨by decide, by with_unfolding_all decide, by with_unfolding_all decide,
   by with_unfolding_all decide, by decide, rfl, by with_unfolding_all decide,
   C1_amended diamondBlocks diamondPreds 100 (fun _ _ => 0) (by decide)
     (by with_unfolding_all decide) (by with_unfolding_all decide)
     (by with_unfolding_all decide) 3 (mkBlock 100 BBjumpKind.BBJ_RETURN none)
     (by decide) rfl (by with_unfolding_all decide)⟩

end FgProfile
